import Mathlib

/-!
# OptionDAX — verification of the option pricing and portfolio analytics engine

A shallow embedding of the analytics core of the OptionDAX application:

* the list-view PnL and Greeks aggregators
  (`calculateTotalGreeks`, `calculatePnlInfoForStructure`, `totalPortfolioGreeks`
  in `StructureListView`),
* the detail-view per-leg analysis and its totals (`analysis` in
  `StructureDetailView`),
* the live market refresh per-leg update (`refreshDaxSpot` in
  `portfolioStore`),
* the payoff-curve sampler (`chartPoints` and `data` in `PayoffChart`),
* the equity/drawdown analyzer (`getSerial`, `getEffectiveClosingDate`,
  `equityChartData`, `keyMetrics` in `PortfolioAnalysis`).

Numbers that the code manipulates exactly (strikes, quantities, prices,
commissions, timestamps, the payoff price grid) are embedded as rationals so
that concrete runs are decidable; quantities produced by the transcendental
pricing kernel live in `ℝ`.  The kernel itself (`services/blackScholes.ts`,
the `BlackScholes` class with `getTimeToExpiry` / `getYearFraction`) is not
part of the repository snapshot, so it is modelled from the specification;
every claim settled here depends only on how the call sites branch around the
kernel, never on the kernel's numeric output.

JavaScript `Array.prototype.sort` with a user comparator is embedded as
`List.insertionSort`; for the concrete inputs appearing below the comparator
is a total preorder on the list's elements, where every comparison sort
agrees with insertion sort.
-/

namespace OptionDax

/-- Option side, `'Call' | 'Put'` in `types.ts`. -/
inductive OptType where
  | Call : OptType
  | Put : OptType
deriving DecidableEq, Repr

/-- Structure lifecycle status, `'Active' | 'Closed'` in `types.ts`. -/
inductive Status where
  | Active : Status
  | Closed : Status
deriving DecidableEq, Repr

/-- Market snapshot (`MarketData` in `types.ts`); `lastUpdate` is irrelevant
to the analytics and omitted. -/
structure MarketData where
  daxSpot : ℚ
  daxVolatility : ℚ
  riskFreeRate : ℚ
deriving Repr

/-- One option position (`OptionLeg` in `types.ts`).  Calendar dates are
embedded as millisecond timestamps (`new Date(s).getTime()`); optional fields
are `Option`, collapsing JavaScript `null` and `undefined`.  `currentPrice`
is written by the live refresh from the pricing kernel and is therefore
real-valued. -/
structure Leg where
  id : String
  optionType : OptType
  strike : ℚ
  expiryDate : ℚ
  quantity : ℚ
  tradePrice : ℚ
  openingDate : ℚ
  closingPrice : Option ℚ := none
  closingDate : Option ℚ := none
  impliedVolatility : ℚ
  openingCommission : Option ℚ := none
  closingCommission : Option ℚ := none
  enabled : Option Bool := none
  currentPrice : Option ℝ := none
  currentIv : Option ℚ := none

/-- A named basket of legs (`Structure` in `types.ts`). -/
structure Structure where
  id : String
  tag : String
  legs : List Leg
  status : Status
  multiplier : ℚ
  closingDate : Option ℚ := none
  realizedPnl : Option ℚ := none
  createdAt : Option ℚ := none

/-- First/second order sensitivities of one option
(`CalculatedGreeks` in `types.ts`). -/
structure Greeks where
  delta : ℝ
  gamma : ℝ
  theta : ℝ
  vega : ℝ

/-! ## Pricing kernel, modelled from the spec

`services/blackScholes.ts` is absent from the repository snapshot; the
definitions in this section reproduce the specification's contract for the
Pricing Kernel (§4.1) and the day-count helpers. -/

/-- Modelled from the spec: the standard normal cumulative distribution
function `Φ`, used by the missing `services/blackScholes.ts`. -/
noncomputable def normalCdf (x : ℝ) : ℝ :=
  (∫ t in Set.Iic x, Real.exp (-(t ^ 2) / 2)) / Real.sqrt (2 * Real.pi)

/-- Modelled from the spec: year fraction between two millisecond timestamps
on the fixed 365.25 days/year basis (`getYearFraction` in the missing
`services/blackScholes.ts`). -/
def getYearFraction (fromDate toDate : ℚ) : ℚ :=
  (toDate - fromDate) / (365.25 * 86400000)

/-- Modelled from the spec: time from `now` to an expiry timestamp in years
(`getTimeToExpiry` in the missing `services/blackScholes.ts`).  The source
reads the clock implicitly; the embedding passes `now` explicitly. -/
def getTimeToExpiry (now expiry : ℚ) : ℚ :=
  getYearFraction now expiry

/-- Modelled from the spec: the lognormal model's `d1`. -/
noncomputable def bsD1 (S K T r sigma : ℝ) : ℝ :=
  (Real.log (S / K) + (r + sigma ^ 2 / 2) * T) / (sigma * Real.sqrt T)

/-- Modelled from the spec: the lognormal model's `d2 = d1 − σ√T`. -/
noncomputable def bsD2 (S K T r sigma : ℝ) : ℝ :=
  bsD1 S K T r sigma - sigma * Real.sqrt T

/-- Intrinsic value of an option (`max(0, spot−strike)` for calls,
`max(0, strike−spot)` for puts), the value the edge-case policy returns. -/
def intrinsicValue (side : OptType) (spot strike : ℚ) : ℚ :=
  match side with
  | OptType.Call => max 0 (spot - strike)
  | OptType.Put => max 0 (strike - spot)

open Classical in
/-- Modelled from the spec: `BlackScholes.callPrice`
(`spot·Φ(d1) − strike·e^(−rT)·Φ(d2)`, intrinsic value when `T ≤ 0` or
`σ ≤ 0`). -/
noncomputable def bsCallPrice (S K T r sigma : ℝ) : ℝ :=
  if T ≤ 0 ∨ sigma ≤ 0 then max 0 (S - K)
  else S * normalCdf (bsD1 S K T r sigma) -
    K * Real.exp (-r * T) * normalCdf (bsD2 S K T r sigma)

open Classical in
/-- Modelled from the spec: `BlackScholes.putPrice` via put-call parity
(`put = call − spot + strike·e^(−rT)`), intrinsic value in the degenerate
regime. -/
noncomputable def bsPutPrice (S K T r sigma : ℝ) : ℝ :=
  if T ≤ 0 ∨ sigma ≤ 0 then max 0 (K - S)
  else bsCallPrice S K T r sigma - S + K * Real.exp (-r * T)

open Classical in
/-- Modelled from the spec: `BlackScholes.callGreeks` — the standard partial
derivatives; theta per calendar day, vega per one-point volatility change. -/
noncomputable def bsCallGreeks (S K T r sigma : ℝ) : Greeks :=
  if T ≤ 0 ∨ sigma ≤ 0 then
    ⟨if S > K then 1 else 0, 0, 0, 0⟩
  else
    let d1 := bsD1 S K T r sigma
    let d2 := bsD2 S K T r sigma
    let pdf := Real.exp (-(d1 ^ 2) / 2) / Real.sqrt (2 * Real.pi)
    { delta := normalCdf d1
      gamma := pdf / (S * sigma * Real.sqrt T)
      theta := (-(S * pdf * sigma) / (2 * Real.sqrt T) -
        r * K * Real.exp (-r * T) * normalCdf d2) / 365.25
      vega := S * pdf * Real.sqrt T / 100 }

open Classical in
/-- Modelled from the spec: `BlackScholes.putGreeks`. -/
noncomputable def bsPutGreeks (S K T r sigma : ℝ) : Greeks :=
  if T ≤ 0 ∨ sigma ≤ 0 then
    ⟨if S < K then -1 else 0, 0, 0, 0⟩
  else
    let d1 := bsD1 S K T r sigma
    let d2 := bsD2 S K T r sigma
    let pdf := Real.exp (-(d1 ^ 2) / 2) / Real.sqrt (2 * Real.pi)
    { delta := normalCdf d1 - 1
      gamma := pdf / (S * sigma * Real.sqrt T)
      theta := (-(S * pdf * sigma) / (2 * Real.sqrt T) +
        r * K * Real.exp (-r * T) * normalCdf (-d2)) / 365.25
      vega := S * pdf * Real.sqrt T / 100 }

/-- Price of one option side from the kernel
(`leg.optionType === 'Call' ? bs.callPrice() : bs.putPrice()`). -/
noncomputable def bsPrice (side : OptType) (S K T r sigma : ℝ) : ℝ :=
  match side with
  | OptType.Call => bsCallPrice S K T r sigma
  | OptType.Put => bsPutPrice S K T r sigma

/-- Greeks of one option side from the kernel
(`leg.optionType === 'Call' ? bs.callGreeks() : bs.putGreeks()`). -/
noncomputable def bsGreeks (side : OptType) (S K T r sigma : ℝ) : Greeks :=
  match side with
  | OptType.Call => bsCallGreeks S K T r sigma
  | OptType.Put => bsPutGreeks S K T r sigma

/-! ## List-view aggregators (`StructureListView`) -/

/-- A leg with a set, non-zero closing price is closed
(`leg.closingPrice !== null && leg.closingPrice !== undefined &&
Number(leg.closingPrice) !== 0`). -/
def IsLegClosed (leg : Leg) : Prop :=
  match leg.closingPrice with
  | none => False
  | some p => p ≠ 0

instance (leg : Leg) : Decidable (IsLegClosed leg) := by
  unfold IsLegClosed; exact match leg.closingPrice with
  | none => inferInstanceAs (Decidable False)
  | some _ => inferInstanceAs (Decidable _)

/-- A leg is skipped by every aggregation when `leg.enabled === false`. -/
def legDisabled (leg : Leg) : Bool :=
  leg.enabled = some false

/-- The current price the list-view PnL aggregator assigns to a leg: the
frozen closing price for a closed leg, the kernel price while time remains,
intrinsic value otherwise (`calculatePnlInfoForStructure`, inner branch). -/
noncomputable def legCurrentPrice (now : ℚ) (mkt : MarketData) (leg : Leg) : ℝ :=
  if IsLegClosed leg then ((leg.closingPrice.getD 0 : ℚ) : ℝ)
  else
    let timeToExpiry := getTimeToExpiry now leg.expiryDate
    if timeToExpiry > 0 then
      bsPrice leg.optionType mkt.daxSpot leg.strike timeToExpiry
        mkt.riskFreeRate leg.impliedVolatility
    else ((intrinsicValue leg.optionType mkt.daxSpot leg.strike : ℚ) : ℝ)

/-- Whether the list-view PnL aggregator constructs a `BlackScholes` instance
for a given leg: only open legs with positive time to expiry reach the kernel
branch of `calculatePnlInfoForStructure`. -/
def ListPnlInvokesKernel (now : ℚ) (leg : Leg) : Prop :=
  ¬IsLegClosed leg ∧ getTimeToExpiry now leg.expiryDate > 0

/-- Result record of `calculatePnlInfoForStructure`. -/
structure PnlInfo where
  netPnl : ℝ
  totalPoints : ℝ

/-- `calculatePnlInfoForStructure` in `StructureListView`: the leg-level
reduce accumulating net PnL and points, followed by the `realizedPnl`
override for non-Active structures. -/
noncomputable def calculatePnlInfoForStructure (now : ℚ) (s : Structure)
    (mkt : MarketData) : PnlInfo :=
  let calculated := s.legs.foldl (fun acc leg =>
    if legDisabled leg then acc
    else
      let currentPrice := legCurrentPrice now mkt leg
      let priceDiff := currentPrice - (leg.tradePrice : ℝ)
      let pnlPoints := priceDiff * (leg.quantity : ℝ)
      let grossPnl := pnlPoints * (s.multiplier : ℝ)
      let commissions := ((leg.openingCommission.getD 0 : ℚ) +
        (leg.closingCommission.getD 0 : ℚ) : ℝ) * |(leg.quantity : ℝ)|
      let netPnl := grossPnl - commissions
      ⟨acc.netPnl + netPnl, acc.totalPoints + pnlPoints⟩) ⟨0, 0⟩
  if s.status ≠ Status.Active ∧ s.realizedPnl ≠ none then
    ⟨((s.realizedPnl.getD 0 : ℚ) : ℝ), calculated.totalPoints⟩
  else calculated

/-- `calculateTotalGreeks` in `StructureListView`: per-structure Greeks,
skipping disabled legs and closed legs, summing each Greek times quantity
(`initialGreeks` is returned directly when the structure has no legs). -/
noncomputable def calculateTotalGreeks (now : ℚ) (s : Structure)
    (mkt : MarketData) : Greeks :=
  if s.legs.isEmpty then ⟨0, 0, 0, 0⟩ else
  s.legs.foldl (fun acc leg =>
    if legDisabled leg then acc
    else if IsLegClosed leg then acc
    else
      let timeToExpiry := getTimeToExpiry now leg.expiryDate
      let greeks := bsGreeks leg.optionType mkt.daxSpot leg.strike
        timeToExpiry mkt.riskFreeRate leg.impliedVolatility
      { delta := acc.delta + greeks.delta * (leg.quantity : ℝ)
        gamma := acc.gamma + greeks.gamma * (leg.quantity : ℝ)
        theta := acc.theta + greeks.theta * (leg.quantity : ℝ)
        vega := acc.vega + greeks.vega * (leg.quantity : ℝ) }) ⟨0, 0, 0, 0⟩

/-- Portfolio-level Greeks record of `totalPortfolioGreeks`: theta and vega
both in currency (scaled by the multiplier) and in points. -/
structure PortfolioGreeks where
  delta : ℝ
  gamma : ℝ
  theta : ℝ
  vega : ℝ
  thetaPoints : ℝ
  vegaPoints : ℝ

/-- `totalPortfolioGreeks` in `StructureListView`: reduce over the active
structures, scaling theta/vega by each structure's multiplier for the
currency figures. -/
noncomputable def totalPortfolioGreeks (now : ℚ) (structures : List Structure)
    (mkt : MarketData) : PortfolioGreeks :=
  (structures.filter fun s => s.status = Status.Active).foldl
    (fun acc s =>
      let g := calculateTotalGreeks now s mkt
      { delta := acc.delta + g.delta
        gamma := acc.gamma + g.gamma
        theta := acc.theta + g.theta * (s.multiplier : ℝ)
        vega := acc.vega + g.vega * (s.multiplier : ℝ)
        thetaPoints := acc.thetaPoints + g.theta
        vegaPoints := acc.vegaPoints + g.vega }) ⟨0, 0, 0, 0, 0, 0⟩

/-! ## Detail-view analysis (`StructureDetailView`) -/

/-- One row of the detail view's `legAnalysis`. -/
structure LegRow where
  id : String
  fairValue : ℝ
  currentPrice : ℝ
  pnlPoints : ℝ
  grossPnl : ℝ
  commissions : ℝ
  netPnl : ℝ
  isClosed : Bool
  delta : ℝ
  gamma : ℝ
  theta : ℝ
  vega : ℝ
  thetaPoints : ℝ
  vegaPoints : ℝ
  volatilityUsed : ℚ

/-- The volatility the detail view feeds to the kernel: the store leg's live
IV when in live mode and that IV is truthy, else the leg's own stored IV
(`isLiveMode && storeLeg?.currentIv ? storeLeg.currentIv :
leg.impliedVolatility`). -/
def detailVolatility (isLiveMode : Bool) (storeLeg : Option Leg)
    (leg : Leg) : ℚ :=
  match isLiveMode, storeLeg with
  | true, some sl =>
    match sl.currentIv with
    | some iv => if iv = 0 then leg.impliedVolatility else iv
    | none => leg.impliedVolatility
  | _, _ => leg.impliedVolatility

/-- One row of the detail view's `analysis.legAnalysis`: the kernel is
consulted unconditionally for the fair value and Greeks; the displayed
current price is the frozen closing price when the leg is closed. -/
noncomputable def detailLegAnalysis (now : ℚ) (structures : List Structure)
    (sId : String) (isLiveMode : Bool) (simulatedSpot : ℚ)
    (mkt : MarketData) (multiplier : ℚ) (leg : Leg) : LegRow :=
  let storeStructure := structures.find? fun s => s.id = sId
  let storeLeg := storeStructure.bind fun ss => ss.legs.find? fun l => l.id = leg.id
  let timeToExpiry := getTimeToExpiry now leg.expiryDate
  let volatilityToUse := detailVolatility isLiveMode storeLeg leg
  let fairValue := bsPrice leg.optionType simulatedSpot leg.strike
    timeToExpiry mkt.riskFreeRate volatilityToUse
  let greeks := bsGreeks leg.optionType simulatedSpot leg.strike
    timeToExpiry mkt.riskFreeRate volatilityToUse
  let currentPrice :=
    if IsLegClosed leg then ((leg.closingPrice.getD 0 : ℚ) : ℝ) else fairValue
  let priceDiff := currentPrice - (leg.tradePrice : ℝ)
  let pnlPoints := priceDiff * (leg.quantity : ℝ)
  let grossPnl := pnlPoints * (multiplier : ℝ)
  let commissions := ((leg.openingCommission.getD 0 : ℚ) +
    (leg.closingCommission.getD 0 : ℚ) : ℝ) * |(leg.quantity : ℝ)|
  let netPnl := grossPnl - commissions
  let thetaPoints := greeks.theta * (leg.quantity : ℝ)
  let vegaPoints := greeks.vega * (leg.quantity : ℝ)
  { id := leg.id
    fairValue := fairValue
    currentPrice := currentPrice
    pnlPoints := pnlPoints
    grossPnl := grossPnl
    commissions := commissions
    netPnl := netPnl
    isClosed := decide (IsLegClosed leg)
    delta := greeks.delta * (leg.quantity : ℝ) * 100
    gamma := greeks.gamma * (leg.quantity : ℝ)
    theta := thetaPoints * (multiplier : ℝ)
    vega := vegaPoints * (multiplier : ℝ)
    thetaPoints := thetaPoints
    vegaPoints := vegaPoints
    volatilityUsed := volatilityToUse }

/-- Whether the detail view's `analysis` constructs a `BlackScholes` instance
for a leg: it always does (`new BlackScholes(...)` is evaluated before the
closed-leg check). -/
def DetailInvokesKernel (_leg : Leg) : Prop := True

/-- The accumulator of the detail view's `totals` reduce. -/
structure DetailTotals where
  pnl : ℝ
  pnlPoints : ℝ
  gross : ℝ
  comm : ℝ
  delta : ℝ
  gamma : ℝ
  theta : ℝ
  vega : ℝ
  thetaPoints : ℝ
  vegaPoints : ℝ

/-- The detail view's `analysis.totals`: reduce over `legAnalysis`, skipping
rows whose leg (looked up by id) is disabled, and adding Greeks only for
rows that are not closed. -/
noncomputable def detailTotals (now : ℚ) (structures : List Structure)
    (s : Structure) (isLiveMode : Bool) (simulatedSpot : ℚ)
    (mkt : MarketData) : DetailTotals :=
  let legAnalysis := s.legs.map
    (detailLegAnalysis now structures s.id isLiveMode simulatedSpot mkt
      s.multiplier)
  legAnalysis.foldl (fun acc curr =>
    let leg := s.legs.find? fun l => l.id = curr.id
    if (leg.map legDisabled).getD false then acc
    else
      let acc1 : DetailTotals :=
        { acc with
          pnl := acc.pnl + curr.netPnl
          pnlPoints := acc.pnlPoints + curr.pnlPoints
          gross := acc.gross + curr.grossPnl
          comm := acc.comm + curr.commissions }
      if curr.isClosed then acc1
      else
        { acc1 with
          delta := acc1.delta + curr.delta
          gamma := acc1.gamma + curr.gamma
          theta := acc1.theta + curr.theta
          vega := acc1.vega + curr.vega
          thetaPoints := acc1.thetaPoints + curr.thetaPoints
          vegaPoints := acc1.vegaPoints + curr.vegaPoints })
    ⟨0, 0, 0, 0, 0, 0, 0, 0, 0, 0⟩

/-! ## Live market refresh (`portfolioStore.refreshDaxSpot`) -/

/-- The per-leg update of `refreshDaxSpot`: a leg with a closing date is
returned untouched; otherwise the kernel (or intrinsic value, once expired)
writes the leg's `currentPrice`, and `currentIv` becomes the market
volatility proxy when it is positive. -/
noncomputable def refreshLegUpdate (now : ℚ) (daxSpot daxVolatility
    riskFreeRate : ℚ) (leg : Leg) : Leg :=
  match leg.closingDate with
  | some _ => leg
  | none =>
    let timeToExpiry := getYearFraction now leg.expiryDate
    let currentIv := if daxVolatility > 0 then daxVolatility
      else leg.impliedVolatility
    let currentPrice : ℝ :=
      if timeToExpiry ≤ 0 then
        ((intrinsicValue leg.optionType daxSpot leg.strike : ℚ) : ℝ)
      else
        bsPrice leg.optionType daxSpot leg.strike timeToExpiry
          riskFreeRate currentIv
    { leg with currentPrice := some currentPrice, currentIv := some currentIv }

/-- Whether `refreshDaxSpot` constructs a `BlackScholes` instance for a leg:
only legs without a closing date and with time remaining reach the kernel
branch.  The guard reads `closingDate`, not `closingPrice`. -/
def RefreshInvokesKernel (now : ℚ) (leg : Leg) : Prop :=
  leg.closingDate = none ∧ ¬getYearFraction now leg.expiryDate ≤ 0

/-! ## Payoff curve sampler (`PayoffChart`) -/

/-- `Math.min(...strikes, currentSpot)` over the legs' strikes. -/
def chartMinStrike (legs : List Leg) (spot : ℚ) : ℚ :=
  (legs.map (·.strike)).foldl min spot

/-- `Math.max(...strikes, currentSpot)` over the legs' strikes. -/
def chartMaxStrike (legs : List Leg) (spot : ℚ) : ℚ :=
  (legs.map (·.strike)).foldl max spot

/-- The strike spread, floored at 1% of spot
(`if (spread < currentSpot * 0.01) spread = currentSpot * 0.01`). -/
def chartSpread (legs : List Leg) (spot : ℚ) : ℚ :=
  let spread := chartMaxStrike legs spot - chartMinStrike legs spot
  if spread < spot * 0.01 then spot * 0.01 else spread

/-- Domain padding: interpolates between 10% of spread at zoom 0 and
`max(5×spread, 30% of spot)` at zoom 1 (`viewRange` runs 0..100). -/
def chartPadding (legs : List Leg) (spot viewRange : ℚ) : ℚ :=
  let spread := chartSpread legs spot
  let expansionFactor := viewRange / 100
  let minPadding := spread * 0.1
  let maxPadding := max (spread * 5) (spot * 0.3)
  minPadding + (maxPadding - minPadding) * expansionFactor

/-- `Math.floor(minStrike - padding)`, the left end of the sampled domain. -/
def chartXMin (legs : List Leg) (spot viewRange : ℚ) : ℚ :=
  ⌊chartMinStrike legs spot - chartPadding legs spot viewRange⌋

/-- `Math.ceil(maxStrike + padding)`, the right end of the sampled domain. -/
def chartXMax (legs : List Leg) (spot viewRange : ℚ) : ℚ :=
  ⌈chartMaxStrike legs spot + chartPadding legs spot viewRange⌉

/-- The 151 evenly spaced base points
(`Array.from({length: pointCount + 1}, (_, i) => xMin + i * step)`). -/
def chartBasePoints (legs : List Leg) (spot viewRange : ℚ) : List ℚ :=
  let xMin := chartXMin legs spot viewRange
  let xMax := chartXMax legs spot viewRange
  let step := (xMax - xMin) / 150
  (List.range 151).map fun (i : ℕ) => xMin + (i : ℚ) * step

/-- The injected critical points: the spot, then each strike and
strike ± 0.5. -/
def chartCriticalPoints (legs : List Leg) (spot : ℚ) : List ℚ :=
  spot :: (legs.map (·.strike)).flatMap fun s => [s, s - 0.5, s + 0.5]

/-- Base and critical points restricted to `[xMin, xMax]` and sorted
ascending (`[...basePoints, ...criticalPoints].filter(...).sort((a, b) =>
a - b)`). -/
def chartAllPoints (legs : List Leg) (spot viewRange : ℚ) : List ℚ :=
  let xMin := chartXMin legs spot viewRange
  let xMax := chartXMax legs spot viewRange
  List.insertionSort (· ≤ ·)
    ((chartBasePoints legs spot viewRange ++ chartCriticalPoints legs spot).filter
      fun p => xMin ≤ p ∧ p ≤ xMax)

/-- The scanning part of the collapse loop: a point survives exactly when it
exceeds its immediate predecessor in the raw sorted list by more than 0.1
(`if (allPoints[i] - allPoints[i-1] > 0.1) uniquePoints.push(allPoints[i])`).
Note `prev` advances to `y` whether or not `y` is kept. -/
def collapseGo (prev : ℚ) : List ℚ → List ℚ
  | [] => []
  | y :: ys => if y - prev > 0.1 then y :: collapseGo y ys else collapseGo y ys

/-- The collapse loop of `chartPoints`: the first point always survives. -/
def collapsePoints : List ℚ → List ℚ
  | [] => []
  | x :: xs => x :: collapseGo x xs

/-- `chartPoints` in `PayoffChart`: the adaptive price grid. -/
def chartPoints (legs : List Leg) (spot viewRange : ℚ) : List ℚ :=
  if legs.isEmpty then []
  else collapsePoints (chartAllPoints legs spot viewRange)

/-- `earliestExpiryDate` in `PayoffChart` (`new Date()` — i.e. `now` — when
there are no legs). -/
def earliestExpiryDate (now : ℚ) (legs : List Leg) : ℚ :=
  match legs.map (·.expiryDate) with
  | [] => now
  | d :: ds => ds.foldl min d

/-- One element of `PayoffChart`'s `data`: a sampled price plus the expiry
and simulated PnL at that price. -/
structure PayoffPoint where
  spot : ℚ
  pnlExpiry : ℝ
  pnlSim : ℝ

/-- The simulated per-leg value in `PayoffChart`'s `data`: intrinsic value
below the 0.001-year epsilon, kernel price otherwise. -/
noncomputable def payoffValSimulated (spot : ℚ) (mkt : MarketData)
    (leg : Leg) (tRemainingSim : ℚ) : ℝ :=
  if tRemainingSim < 0.001 then
    ((intrinsicValue leg.optionType spot leg.strike : ℚ) : ℝ)
  else
    bsPrice leg.optionType spot leg.strike tRemainingSim
      mkt.riskFreeRate leg.impliedVolatility

/-- The expiry-date per-leg value in `PayoffChart`'s `data`: legs expiring
at the earliest expiry (within a day) contribute intrinsic value, later legs
the kernel price over their remaining life. -/
noncomputable def payoffValAtExpiry (spot : ℚ) (mkt : MarketData)
    (earliest : ℚ) (leg : Leg) : ℝ :=
  if |leg.expiryDate - earliest| < 24 * 3600 * 1000 then
    ((intrinsicValue leg.optionType spot leg.strike : ℚ) : ℝ)
  else
    bsPrice leg.optionType spot leg.strike
      (getYearFraction earliest leg.expiryDate) mkt.riskFreeRate
      leg.impliedVolatility

/-- `data` in `PayoffChart`: empty when there are no sampled points, a flat
line at the frozen `realizedPnl` for a Closed structure, and otherwise the
per-price leg sums (long and short legs accumulated by the source's two
algebraically equivalent branches). -/
noncomputable def payoffData (now : ℚ) (legs : List Leg) (mkt : MarketData)
    (multiplier viewRange simTimePercent : ℚ) (structureStatus : Status)
    (realizedPnl : Option ℚ) : List PayoffPoint :=
  let chartPts := chartPoints legs mkt.daxSpot viewRange
  if chartPts.isEmpty then []
  else if structureStatus = Status.Closed ∧ realizedPnl ≠ none then
    chartPts.map fun spot =>
      ⟨spot, ((realizedPnl.getD 0 : ℚ) : ℝ), ((realizedPnl.getD 0 : ℚ) : ℝ)⟩
  else
    let earliest := earliestExpiryDate now legs
    let tNowToExpiry := getYearFraction now earliest
    let tElapsed := tNowToExpiry * (simTimePercent / 100)
    chartPts.map fun spot =>
      let sums := legs.foldl (fun (acc : ℝ × ℝ) leg =>
        let valAtExpiry := payoffValAtExpiry spot mkt earliest leg
        let tTotalLeg := getYearFraction now leg.expiryDate
        let tRemainingSim := max 0 (tTotalLeg - tElapsed)
        let valSimulated := payoffValSimulated spot mkt leg tRemainingSim
        if leg.quantity > 0 then
          (acc.1 + (valAtExpiry - (leg.tradePrice : ℝ)) * (leg.quantity : ℝ),
            acc.2 + (valSimulated - (leg.tradePrice : ℝ)) * (leg.quantity : ℝ))
        else
          (acc.1 + ((leg.tradePrice : ℝ) - valAtExpiry) * |(leg.quantity : ℝ)|,
            acc.2 + ((leg.tradePrice : ℝ) - valSimulated) * |(leg.quantity : ℝ)|))
        (0, 0)
      ⟨spot, sums.1 * (multiplier : ℝ), sums.2 * (multiplier : ℝ)⟩

/-! ## Equity/drawdown analyzer (`PortfolioAnalysis`) -/

/-- `getSerial` in `PortfolioAnalysis`: the integer serial parsed from the
trailing digits of a structure's tag (`tag.match(/(\d+)$/)`), `-1` when the
tag has none. -/
def getSerial (tag : String) : Int :=
  let digits := (tag.toList.reverse.takeWhile Char.isDigit).reverse
  if digits.isEmpty then -1
  else (digits.foldl (fun n c => n * 10 + (c.toNat - 48)) 0 : Nat)

/-- `getEffectiveClosingDate` in `PortfolioAnalysis`: the latest closing
date among the structure's legs, else the structure's own closing date
(0 when absent). -/
def getEffectiveClosingDate (s : Structure) : ℚ :=
  match s.legs.filterMap (·.closingDate) with
  | [] => s.closingDate.getD 0
  | d :: ds => ds.foldl max d

/-- The sort comparator of `equityChartData` / `individualPnlData`: serial
difference when both tags carry a serial, effective-closing-date difference
otherwise. -/
def structCmp (a b : Structure) : ℚ :=
  let serialA := getSerial a.tag
  let serialB := getSerial b.tag
  if serialA ≠ -1 ∧ serialB ≠ -1 then ((serialA - serialB : Int) : ℚ)
  else getEffectiveClosingDate a - getEffectiveClosingDate b

/-- `a` precedes (or ties) `b` under the analyzer's comparator. -/
def structLe (a b : Structure) : Prop := structCmp a b ≤ 0

instance : DecidableRel structLe := fun a b =>
  inferInstanceAs (Decidable (structCmp a b ≤ 0))

/-- The analyzer's `[...closedStructures].sort(comparator)`, embedded as a
stable insertion sort. -/
def sortStructures (l : List Structure) : List Structure :=
  List.insertionSort structLe l

/-- One emitted point of the equity series (`uniqueId` and the localized
`name` label are display-only and omitted). -/
structure EquityPoint where
  tag : String
  equity : ℚ
  drawdown : ℚ
  date : ℚ
deriving DecidableEq

/-- `equityChartData` in `PortfolioAnalysis`: sort the Closed structures,
then walk them accumulating realized PnL into equity, emitting the starting
point followed by one point per structure with
`drawdown = equity − max(initial capital, all equities so far)`. -/
def equityChartData (structures : List Structure)
    (initialCapital : ℚ) : List EquityPoint :=
  let closedStructures := structures.filter fun s => s.status = Status.Closed
  if closedStructures.isEmpty then []
  else
    let sorted := sortStructures closedStructures
    let start : EquityPoint := ⟨"Capitale Iniziale", initialCapital, 0, 0⟩
    (sorted.foldl (fun (st : ℚ × List EquityPoint) s =>
      let cumulativePnl := st.1 + s.realizedPnl.getD 0
      let currentEquity := initialCapital + cumulativePnl
      let peakEquity :=
        max ((st.2.map (·.equity)).foldl max initialCapital) currentEquity
      let drawdown := currentEquity - peakEquity
      (cumulativePnl,
        st.2 ++ [⟨s.tag, currentEquity, drawdown, getEffectiveClosingDate s⟩]))
      (0, [start])).2

/-- `keyMetrics.maxDrawdown` in `PortfolioAnalysis`:
`Math.min(0, ...drawdowns)` when the series has more than one point, else
0. -/
def maxDrawdown (structures : List Structure) (initialCapital : ℚ) : ℚ :=
  let data := equityChartData structures initialCapital
  if data.length > 1 then (data.map (·.drawdown)).foldl min 0 else 0

/-! ## Per-leg quantities named by the specification

The specification states the aggregation contracts as per-leg formulas summed
over the enabled (and, for Greeks, open) legs.  The following definitions
spell those formulas out so the theorems below can compare them with the
reduces in the source. -/

/-- `pointsPnl = priceDiff × quantity` with
`priceDiff = currentPrice − tradePrice`. -/
noncomputable def legPnlPoints (now : ℚ) (mkt : MarketData) (leg : Leg) : ℝ :=
  (legCurrentPrice now mkt leg - (leg.tradePrice : ℝ)) * (leg.quantity : ℝ)

/-- `commissions = (openingCommission + closingCommission) × |quantity|`. -/
def legCommissions (leg : Leg) : ℝ :=
  ((leg.openingCommission.getD 0 : ℚ) + (leg.closingCommission.getD 0 : ℚ) : ℝ) *
    |(leg.quantity : ℝ)|

/-- `netPnl = pointsPnl × multiplier − commissions`. -/
noncomputable def legNetPnl (now : ℚ) (mkt : MarketData) (multiplier : ℚ)
    (leg : Leg) : ℝ :=
  legPnlPoints now mkt leg * (multiplier : ℝ) - legCommissions leg

/-- The legs every aggregation keeps: those not disabled. -/
def enabledLegs (s : Structure) : List Leg :=
  s.legs.filter fun l => !legDisabled l

/-- The legs contributing forward risk: enabled and open. -/
def openEnabledLegs (s : Structure) : List Leg :=
  s.legs.filter fun l => !legDisabled l && !decide (IsLegClosed l)

/-- The kernel Greeks of one leg at a market snapshot, as the list view
computes them. -/
noncomputable def legGreeks (now : ℚ) (mkt : MarketData) (leg : Leg) : Greeks :=
  bsGreeks leg.optionType mkt.daxSpot leg.strike
    (getTimeToExpiry now leg.expiryDate) mkt.riskFreeRate leg.impliedVolatility

/-! ## Fold-to-sum lemmas -/

lemma pnl_fold (now : ℚ) (s : Structure) (mkt : MarketData) :
    ∀ (legs : List Leg) (acc : PnlInfo),
      (legs.foldl (fun acc leg =>
        if legDisabled leg then acc
        else
          let currentPrice := legCurrentPrice now mkt leg
          let priceDiff := currentPrice - (leg.tradePrice : ℝ)
          let pnlPoints := priceDiff * (leg.quantity : ℝ)
          let grossPnl := pnlPoints * (s.multiplier : ℝ)
          let commissions := ((leg.openingCommission.getD 0 : ℚ) +
            (leg.closingCommission.getD 0 : ℚ) : ℝ) * |(leg.quantity : ℝ)|
          let netPnl := grossPnl - commissions
          ⟨acc.netPnl + netPnl, acc.totalPoints + pnlPoints⟩) acc)
      = ⟨acc.netPnl + ((legs.filter fun l => !legDisabled l).map
            (legNetPnl now mkt s.multiplier)).sum,
          acc.totalPoints + ((legs.filter fun l => !legDisabled l).map
            (legPnlPoints now mkt)).sum⟩ := by
  intro legs
  induction legs with
  | nil => intro acc; simp
  | cons leg rest ih =>
    intro acc
    by_cases h : legDisabled leg
    · simp [h, ih]
    · rw [Bool.not_eq_true] at h
      simp only [List.foldl_cons, List.filter_cons, h, Bool.not_false, if_pos,
        Bool.false_eq_true, if_false, List.map_cons, List.sum_cons, ih,
        PnlInfo.mk.injEq, legNetPnl, legPnlPoints, legCommissions]
      constructor <;> ring

lemma greeks_fold (now : ℚ) (mkt : MarketData) :
    ∀ (legs : List Leg) (acc : Greeks),
      (legs.foldl (fun acc leg =>
        if legDisabled leg then acc
        else if IsLegClosed leg then acc
        else
          let timeToExpiry := getTimeToExpiry now leg.expiryDate
          let greeks := bsGreeks leg.optionType mkt.daxSpot leg.strike
            timeToExpiry mkt.riskFreeRate leg.impliedVolatility
          { delta := acc.delta + greeks.delta * (leg.quantity : ℝ)
            gamma := acc.gamma + greeks.gamma * (leg.quantity : ℝ)
            theta := acc.theta + greeks.theta * (leg.quantity : ℝ)
            vega := acc.vega + greeks.vega * (leg.quantity : ℝ) }) acc)
      = ⟨acc.delta + ((legs.filter fun l => !legDisabled l && !decide (IsLegClosed l)).map
            (fun l => (legGreeks now mkt l).delta * (l.quantity : ℝ))).sum,
          acc.gamma + ((legs.filter fun l => !legDisabled l && !decide (IsLegClosed l)).map
            (fun l => (legGreeks now mkt l).gamma * (l.quantity : ℝ))).sum,
          acc.theta + ((legs.filter fun l => !legDisabled l && !decide (IsLegClosed l)).map
            (fun l => (legGreeks now mkt l).theta * (l.quantity : ℝ))).sum,
          acc.vega + ((legs.filter fun l => !legDisabled l && !decide (IsLegClosed l)).map
            (fun l => (legGreeks now mkt l).vega * (l.quantity : ℝ))).sum⟩ := by
  intro legs
  induction legs with
  | nil => intro acc; simp
  | cons leg rest ih =>
    intro acc
    by_cases h : legDisabled leg
    · simp [h, ih]
    · by_cases hc : IsLegClosed leg
      · simp [h, hc, ih]
      · rw [Bool.not_eq_true] at h
        simp only [List.foldl_cons, List.filter_cons, h, Bool.not_false,
          Bool.false_eq_true, if_false, if_neg hc, hc, decide_False,
          Bool.not_false, Bool.and_self, Bool.true_and, if_true, List.map_cons,
          List.sum_cons, ih, Greeks.mk.injEq, legGreeks]
        refine ⟨by ring, by ring, by ring, by ring⟩

lemma portfolio_fold (now : ℚ) (mkt : MarketData) :
    ∀ (ss : List Structure) (acc : PortfolioGreeks),
      (ss.foldl (fun acc s =>
        let g := calculateTotalGreeks now s mkt
        { delta := acc.delta + g.delta
          gamma := acc.gamma + g.gamma
          theta := acc.theta + g.theta * (s.multiplier : ℝ)
          vega := acc.vega + g.vega * (s.multiplier : ℝ)
          thetaPoints := acc.thetaPoints + g.theta
          vegaPoints := acc.vegaPoints + g.vega }) acc)
      = ⟨acc.delta + (ss.map fun s => (calculateTotalGreeks now s mkt).delta).sum,
          acc.gamma + (ss.map fun s => (calculateTotalGreeks now s mkt).gamma).sum,
          acc.theta + (ss.map fun s =>
            (calculateTotalGreeks now s mkt).theta * (s.multiplier : ℝ)).sum,
          acc.vega + (ss.map fun s =>
            (calculateTotalGreeks now s mkt).vega * (s.multiplier : ℝ)).sum,
          acc.thetaPoints + (ss.map fun s => (calculateTotalGreeks now s mkt).theta).sum,
          acc.vegaPoints + (ss.map fun s => (calculateTotalGreeks now s mkt).vega).sum⟩ := by
  intro ss
  induction ss with
  | nil => intro acc; simp
  | cons s rest ih =>
    intro acc
    simp only [List.foldl_cons, List.map_cons, List.sum_cons, ih,
      PortfolioGreeks.mk.injEq]
    refine ⟨by ring, by ring, by ring, by ring, by ring, by ring⟩

lemma find?_id_of_nodup :
    ∀ (legs : List Leg), (legs.map (·.id)).Nodup →
      ∀ leg ∈ legs, (legs.find? fun l => l.id = leg.id) = some leg := by
  intro legs
  induction legs with
  | nil => intro _ leg h; simp at h
  | cons x xs ih =>
    intro hnd leg hmem
    simp only [List.map_cons, List.nodup_cons] at hnd
    rcases List.mem_cons.mp hmem with rfl | hmem'
    · simp [List.find?_cons]
    · rw [List.find?_cons]
      have hx : (decide (x.id = leg.id)) = false := by
        rw [decide_eq_false_iff_not]
        intro hEq
        exact hnd.1 (hEq ▸ List.mem_map_of_mem (·.id) hmem')
      rw [hx]
      exact ih hnd.2 leg hmem'

lemma detail_fold (now : ℚ) (structures : List Structure) (s : Structure)
    (live : Bool) (spot : ℚ) (mkt : MarketData) :
    ∀ (subLegs : List Leg) (acc : DetailTotals),
      (∀ l ∈ subLegs, (s.legs.find? fun x => x.id = l.id) = some l) →
      ((subLegs.map (detailLegAnalysis now structures s.id live spot mkt
          s.multiplier)).foldl (fun acc curr =>
        let leg := s.legs.find? fun l => l.id = curr.id
        if (leg.map legDisabled).getD false then acc
        else
          let acc1 : DetailTotals :=
            { acc with
              pnl := acc.pnl + curr.netPnl
              pnlPoints := acc.pnlPoints + curr.pnlPoints
              gross := acc.gross + curr.grossPnl
              comm := acc.comm + curr.commissions }
          if curr.isClosed then acc1
          else
            { acc1 with
              delta := acc1.delta + curr.delta
              gamma := acc1.gamma + curr.gamma
              theta := acc1.theta + curr.theta
              vega := acc1.vega + curr.vega
              thetaPoints := acc1.thetaPoints + curr.thetaPoints
              vegaPoints := acc1.vegaPoints + curr.vegaPoints }) acc)
      = (let row := detailLegAnalysis now structures s.id live spot mkt
            s.multiplier
          let en := subLegs.filter fun l => !legDisabled l
          let op := subLegs.filter fun l => !legDisabled l && !decide (IsLegClosed l)
          ⟨acc.pnl + (en.map fun l => (row l).netPnl).sum,
            acc.pnlPoints + (en.map fun l => (row l).pnlPoints).sum,
            acc.gross + (en.map fun l => (row l).grossPnl).sum,
            acc.comm + (en.map fun l => (row l).commissions).sum,
            acc.delta + (op.map fun l => (row l).delta).sum,
            acc.gamma + (op.map fun l => (row l).gamma).sum,
            acc.theta + (op.map fun l => (row l).theta).sum,
            acc.vega + (op.map fun l => (row l).vega).sum,
            acc.thetaPoints + (op.map fun l => (row l).thetaPoints).sum,
            acc.vegaPoints + (op.map fun l => (row l).vegaPoints).sum⟩) := by
  intro subLegs
  induction subLegs with
  | nil => intro acc _; simp
  | cons l rest ih =>
    intro acc hfind
    have hfl := hfind l (List.mem_cons_self l rest)
    have hid : (detailLegAnalysis now structures s.id live spot mkt
        s.multiplier l).id = l.id := by
      simp [detailLegAnalysis]
    have hcl : (detailLegAnalysis now structures s.id live spot mkt
        s.multiplier l).isClosed = decide (IsLegClosed l) := by
      simp [detailLegAnalysis]
    have hrest := fun acc => ih acc (fun x hx => hfind x (List.mem_cons_of_mem l hx))
    by_cases h : legDisabled l
    · simp only [List.map_cons, List.foldl_cons, hid, hfl, Option.map_some',
        Option.getD_some, h, if_true, List.filter_cons, Bool.not_true,
        Bool.false_and, Bool.false_eq_true, if_false]
      exact hrest _
    · rw [Bool.not_eq_true] at h
      by_cases hc : IsLegClosed l
      · simp only [List.map_cons, List.foldl_cons, hid, hfl, Option.map_some',
          Option.getD_some, h, Bool.false_eq_true, if_false, hcl, hc,
          decide_True, if_true, List.filter_cons, Bool.not_false, Bool.not_true,
          Bool.true_and, Bool.and_false, List.sum_cons]
        rw [hrest _]
        simp only [DetailTotals.mk.injEq]
        refine ⟨by ring, by ring, by ring, by ring, by ring, by ring, by ring,
          by ring, by ring, by ring⟩
      · simp only [List.map_cons, List.foldl_cons, hid, hfl, Option.map_some',
          Option.getD_some, h, Bool.false_eq_true, if_false, hcl, hc,
          decide_False, if_true, List.filter_cons, Bool.not_false, Bool.true_and,
          Bool.and_self, List.sum_cons]
        rw [hrest _]
        simp only [DetailTotals.mk.injEq]
        refine ⟨by ring, by ring, by ring, by ring, by ring, by ring, by ring,
          by ring, by ring, by ring⟩

/-- `calculateTotalGreeks` in closed form: each Greek is the sum of the
per-leg kernel Greek times quantity over the open, enabled legs. -/
lemma calcGreeks_eq (now : ℚ) (s : Structure) (mkt : MarketData) :
    calculateTotalGreeks now s mkt =
      ⟨((openEnabledLegs s).map fun l => (legGreeks now mkt l).delta * (l.quantity : ℝ)).sum,
        ((openEnabledLegs s).map fun l => (legGreeks now mkt l).gamma * (l.quantity : ℝ)).sum,
        ((openEnabledLegs s).map fun l => (legGreeks now mkt l).theta * (l.quantity : ℝ)).sum,
        ((openEnabledLegs s).map fun l => (legGreeks now mkt l).vega * (l.quantity : ℝ)).sum⟩ := by
  unfold calculateTotalGreeks
  by_cases hE : s.legs.isEmpty
  · rw [if_pos hE]
    have h0 : s.legs = [] := List.isEmpty_iff.mp hE
    simp [openEnabledLegs, h0]
  · rw [if_neg hE, greeks_fold]
    simp [openEnabledLegs]

/-- The PnL reduce of `calculatePnlInfoForStructure` in closed form. -/
lemma calcPnl_fold_eq (now : ℚ) (s : Structure) (mkt : MarketData) :
    (s.legs.foldl (fun acc leg =>
      if legDisabled leg then acc
      else
        let currentPrice := legCurrentPrice now mkt leg
        let priceDiff := currentPrice - (leg.tradePrice : ℝ)
        let pnlPoints := priceDiff * (leg.quantity : ℝ)
        let grossPnl := pnlPoints * (s.multiplier : ℝ)
        let commissions := ((leg.openingCommission.getD 0 : ℚ) +
          (leg.closingCommission.getD 0 : ℚ) : ℝ) * |(leg.quantity : ℝ)|
        let netPnl := grossPnl - commissions
        ⟨acc.netPnl + netPnl, acc.totalPoints + pnlPoints⟩) (⟨0, 0⟩ : PnlInfo))
    = ⟨((enabledLegs s).map (legNetPnl now mkt s.multiplier)).sum,
        ((enabledLegs s).map (legPnlPoints now mkt)).sum⟩ := by
  rw [pnl_fold]
  simp [enabledLegs]

/-- The detail view's `totals` in closed form, assuming the structure's leg
ids are distinct (so the by-id lookup inside the reduce recovers each leg). -/
lemma detailTotals_eq (now : ℚ) (structures : List Structure) (s : Structure)
    (live : Bool) (spot : ℚ) (mkt : MarketData)
    (hNodup : (s.legs.map (·.id)).Nodup) :
    detailTotals now structures s live spot mkt =
      (let row := detailLegAnalysis now structures s.id live spot mkt s.multiplier;
        ⟨((enabledLegs s).map fun l => (row l).netPnl).sum,
          ((enabledLegs s).map fun l => (row l).pnlPoints).sum,
          ((enabledLegs s).map fun l => (row l).grossPnl).sum,
          ((enabledLegs s).map fun l => (row l).commissions).sum,
          ((openEnabledLegs s).map fun l => (row l).delta).sum,
          ((openEnabledLegs s).map fun l => (row l).gamma).sum,
          ((openEnabledLegs s).map fun l => (row l).theta).sum,
          ((openEnabledLegs s).map fun l => (row l).vega).sum,
          ((openEnabledLegs s).map fun l => (row l).thetaPoints).sum,
          ((openEnabledLegs s).map fun l => (row l).vegaPoints).sum⟩) := by
  unfold detailTotals
  rw [detail_fold now structures s live spot mkt s.legs _
    (fun l hl => find?_id_of_nodup s.legs hNodup l hl)]
  simp [enabledLegs, openEnabledLegs]

/-! ## Concrete example data for witnesses and counterexamples -/

/-- An open long call used by witnesses. -/
def exLegOpen : Leg :=
  { id := "a", optionType := OptType.Call, strike := 24500,
    expiryDate := 2000000000, quantity := 2, tradePrice := 100,
    openingDate := 0, impliedVolatility := 15,
    openingCommission := some 1, closingCommission := some 1 }

/-- A closed short put (closing price set, non-zero) used by witnesses. -/
def exLegClosed : Leg :=
  { id := "b", optionType := OptType.Put, strike := 24000,
    expiryDate := 2000000000, quantity := -1, tradePrice := 80,
    openingDate := 0, closingPrice := some 12, closingDate := some 500,
    impliedVolatility := 15,
    openingCommission := some 1, closingCommission := some 1 }

/-- A market snapshot used by witnesses. -/
def exMkt : MarketData := ⟨24500, 15, 2.61⟩

/-- An Active two-leg structure used by witnesses. -/
def exActive : Structure :=
  { id := "s1", tag := "Strat 1", legs := [exLegOpen, exLegClosed],
    status := Status.Active, multiplier := 5 }

/-- A Closed structure with a frozen realized PnL used by witnesses. -/
def exClosed : Structure :=
  { id := "s2", tag := "Strat 2", legs := [exLegClosed],
    status := Status.Closed, multiplier := 5, closingDate := some 600,
    realizedPnl := some 42 }

/-! ## Claims -/

/-- **C1.** For every structure and market snapshot, the PnL aggregator
computes per enabled leg `priceDiff = currentPrice − tradePrice`,
`pointsPnl = priceDiff × quantity` (one signed expression for long and
short), `grossPnl = pointsPnl × multiplier`,
`commissions = (openingCommission + closingCommission) × |quantity|`,
`netPnl = grossPnl − commissions`, and sums these across the enabled legs —
in the list view (for an Active structure) and in the detail view's totals
(for distinct leg ids); legs with `enabled = false` contribute nothing. -/
theorem claim1_pnl_aggregator (now : ℚ) (s : Structure) (mkt : MarketData)
    (structures : List Structure) (live : Bool) (spot : ℚ)
    (hActive : s.status = Status.Active)
    (hNodup : (s.legs.map (·.id)).Nodup) :
    calculatePnlInfoForStructure now s mkt =
      ⟨((enabledLegs s).map (legNetPnl now mkt s.multiplier)).sum,
        ((enabledLegs s).map (legPnlPoints now mkt)).sum⟩ ∧
    (∀ (l1 l2 : List Leg) (leg : Leg),
      calculatePnlInfoForStructure now
          { s with legs := l1 ++ { leg with enabled := some false } :: l2 } mkt =
        calculatePnlInfoForStructure now { s with legs := l1 ++ l2 } mkt) ∧
    (detailTotals now structures s live spot mkt).pnl =
      ((enabledLegs s).map fun l =>
        (detailLegAnalysis now structures s.id live spot mkt s.multiplier l).netPnl).sum ∧
    (detailTotals now structures s live spot mkt).pnlPoints =
      ((enabledLegs s).map fun l =>
        (detailLegAnalysis now structures s.id live spot mkt s.multiplier l).pnlPoints).sum ∧
    (detailTotals now structures s live spot mkt).gross =
      ((enabledLegs s).map fun l =>
        (detailLegAnalysis now structures s.id live spot mkt s.multiplier l).grossPnl).sum ∧
    (detailTotals now structures s live spot mkt).comm =
      ((enabledLegs s).map fun l =>
        (detailLegAnalysis now structures s.id live spot mkt s.multiplier l).commissions).sum := by
  refine ⟨?_, ?_, ?_, ?_, ?_, ?_⟩
  · simp only [calculatePnlInfoForStructure]
    rw [if_neg (by simp [hActive])]
    exact calcPnl_fold_eq now s mkt
  · intro l1 l2 leg
    simp only [calculatePnlInfoForStructure, pnl_fold, legDisabled,
      List.filter_append, List.filter_cons]
    simp
  · rw [detailTotals_eq now structures s live spot mkt hNodup]
  · rw [detailTotals_eq now structures s live spot mkt hNodup]
  · rw [detailTotals_eq now structures s live spot mkt hNodup]
  · rw [detailTotals_eq now structures s live spot mkt hNodup]

/-- Witness for C1: the hypotheses hold at a concrete Active structure, and
the instantiated list-view conclusion follows from the theorem. -/
theorem claim1_pnl_aggregator_witness :
    exActive.status = Status.Active ∧ (exActive.legs.map (·.id)).Nodup ∧
    calculatePnlInfoForStructure 0 exActive exMkt =
      ⟨((enabledLegs exActive).map (legNetPnl 0 exMkt exActive.multiplier)).sum,
        ((enabledLegs exActive).map (legPnlPoints 0 exMkt)).sum⟩ :=
  ⟨rfl, by decide,
    (claim1_pnl_aggregator 0 exActive exMkt [] false 24500 rfl (by decide)).1⟩

/-- **C3.** A structure whose status is Closed with `realizedPnl` present
reports the frozen `realizedPnl` as `netPnl` instead of the leg resum, but
still reports `totalPoints` from the leg-level recomputation. -/
theorem claim3_closed_realized_pnl (now : ℚ) (s : Structure)
    (mkt : MarketData) (r : ℚ) (hClosed : s.status = Status.Closed)
    (hr : s.realizedPnl = some r) :
    calculatePnlInfoForStructure now s mkt =
      ⟨(r : ℝ), ((enabledLegs s).map (legPnlPoints now mkt)).sum⟩ := by
  simp only [calculatePnlInfoForStructure]
  rw [if_pos ⟨by simp [hClosed], by simp [hr]⟩, calcPnl_fold_eq now s mkt]
  simp [hr]

/-- Witness for C3 at a concrete Closed structure. -/
theorem claim3_closed_realized_pnl_witness :
    exClosed.status = Status.Closed ∧ exClosed.realizedPnl = some 42 ∧
    calculatePnlInfoForStructure 0 exClosed exMkt =
      ⟨((42 : ℚ) : ℝ), ((enabledLegs exClosed).map (legPnlPoints 0 exMkt)).sum⟩ :=
  ⟨rfl, rfl, claim3_closed_realized_pnl 0 exClosed exMkt 42 rfl rfl⟩

/-- **C4.** Aggregated Greeks are the sums of per-leg Greek × quantity over
open, enabled legs only; a closed or disabled leg contributes exactly zero;
and at the portfolio level theta and vega are additionally scaled by each
structure's multiplier (delta and gamma are not). -/
theorem claim4_greeks_aggregation (now : ℚ) (s : Structure)
    (mkt : MarketData) (structures : List Structure) :
    calculateTotalGreeks now s mkt =
      ⟨((openEnabledLegs s).map fun l => (legGreeks now mkt l).delta * (l.quantity : ℝ)).sum,
        ((openEnabledLegs s).map fun l => (legGreeks now mkt l).gamma * (l.quantity : ℝ)).sum,
        ((openEnabledLegs s).map fun l => (legGreeks now mkt l).theta * (l.quantity : ℝ)).sum,
        ((openEnabledLegs s).map fun l => (legGreeks now mkt l).vega * (l.quantity : ℝ)).sum⟩ ∧
    totalPortfolioGreeks now structures mkt =
      ⟨((structures.filter fun t => t.status = Status.Active).map fun t =>
          (calculateTotalGreeks now t mkt).delta).sum,
        ((structures.filter fun t => t.status = Status.Active).map fun t =>
          (calculateTotalGreeks now t mkt).gamma).sum,
        ((structures.filter fun t => t.status = Status.Active).map fun t =>
          (calculateTotalGreeks now t mkt).theta * (t.multiplier : ℝ)).sum,
        ((structures.filter fun t => t.status = Status.Active).map fun t =>
          (calculateTotalGreeks now t mkt).vega * (t.multiplier : ℝ)).sum,
        ((structures.filter fun t => t.status = Status.Active).map fun t =>
          (calculateTotalGreeks now t mkt).theta).sum,
        ((structures.filter fun t => t.status = Status.Active).map fun t =>
          (calculateTotalGreeks now t mkt).vega).sum⟩ ∧
    (∀ (l1 l2 : List Leg) (leg : Leg),
      IsLegClosed leg ∨ legDisabled leg = true →
      calculateTotalGreeks now { s with legs := l1 ++ leg :: l2 } mkt =
        calculateTotalGreeks now { s with legs := l1 ++ l2 } mkt) := by
  refine ⟨calcGreeks_eq now s mkt, ?_, ?_⟩
  · simp only [totalPortfolioGreeks]
    rw [portfolio_fold]
    simp
  · intro l1 l2 leg hleg
    rw [calcGreeks_eq, calcGreeks_eq]
    have hp : (!legDisabled leg && !decide (IsLegClosed leg)) = false := by
      rcases hleg with hc | hd
      · simp [hc]
      · simp [hd]
    simp [openEnabledLegs, List.filter_append, List.filter_cons, hp]

/-- Witness for C4: instantiates the closed/disabled-leg conjunct at a
concrete closed leg. -/
theorem claim4_greeks_aggregation_witness :
    IsLegClosed exLegClosed ∧
    calculateTotalGreeks 0 { exActive with legs := [] ++ exLegClosed :: [exLegOpen] } exMkt =
      calculateTotalGreeks 0 { exActive with legs := [] ++ [exLegOpen] } exMkt :=
  ⟨by decide,
    (claim4_greeks_aggregation 0 exActive exMkt []).2.2 [] [exLegOpen]
      exLegClosed (Or.inl (by decide))⟩

/-- **C10.** With the same market snapshot (detail view in simulation mode at
the live spot, so the same volatility and spot feed the kernel), the detail
view's total delta is exactly 100 times the list view's total delta, because
the detail view scales each leg's delta by 100. -/
theorem claim10_detail_delta_scaling (now : ℚ) (structures : List Structure)
    (s : Structure) (mkt : MarketData)
    (hNodup : (s.legs.map (·.id)).Nodup) :
    (detailTotals now structures s false mkt.daxSpot mkt).delta =
      100 * (calculateTotalGreeks now s mkt).delta := by
  rw [detailTotals_eq now structures s false mkt.daxSpot mkt hNodup,
    calcGreeks_eq now s mkt]
  show ((openEnabledLegs s).map fun l =>
    (detailLegAnalysis now structures s.id false mkt.daxSpot mkt s.multiplier l).delta).sum = _
  have hrow : ∀ l : Leg,
      (detailLegAnalysis now structures s.id false mkt.daxSpot mkt s.multiplier l).delta
        = (legGreeks now mkt l).delta * (l.quantity : ℝ) * 100 := by
    intro l
    simp [detailLegAnalysis, detailVolatility, legGreeks]
  calc ((openEnabledLegs s).map fun l =>
        (detailLegAnalysis now structures s.id false mkt.daxSpot mkt s.multiplier l).delta).sum
      = ((openEnabledLegs s).map fun l =>
          (legGreeks now mkt l).delta * (l.quantity : ℝ) * 100).sum := by
        simp only [hrow]
    _ = ((openEnabledLegs s).map fun l =>
          (legGreeks now mkt l).delta * (l.quantity : ℝ)).sum * 100 :=
        List.sum_map_mul_right _ _ _
    _ = 100 * ((openEnabledLegs s).map fun l =>
          (legGreeks now mkt l).delta * (l.quantity : ℝ)).sum := by ring

/-- Witness for C10 at a concrete structure with distinct leg ids. -/
theorem claim10_detail_delta_scaling_witness :
    (exActive.legs.map (·.id)).Nodup ∧
    (detailTotals 0 [] exActive false exMkt.daxSpot exMkt).delta =
      100 * (calculateTotalGreeks 0 exActive exMkt).delta :=
  ⟨by decide, claim10_detail_delta_scaling 0 [] exActive exMkt (by decide)⟩

/-- A closed leg (non-zero closing price) whose closing date was cleared:
the live refresh guard reads only `closingDate`, so this leg is revalued. -/
def exLegNoDate : Leg :=
  { id := "c", optionType := OptType.Call, strike := 24000,
    expiryDate := 2000000000, quantity := 1, tradePrice := 50,
    openingDate := 0, closingPrice := some 10, closingDate := none,
    impliedVolatility := 15 }

/-- An open leg already past its expiry date (relative to `now = 0`). -/
def exLegExpired : Leg :=
  { id := "d", optionType := OptType.Put, strike := 25000,
    expiryDate := -1000, quantity := 1, tradePrice := 50,
    openingDate := -2000, impliedVolatility := 15 }

/-- **C2 (amended).** A leg with a set, non-zero `closingPrice` is valued at
that frozen price wherever a current price is reported: the list-view
aggregator uses it and does not contact the kernel for that leg, and the
detail view uses it as the displayed current price — but the detail view
still constructs a `BlackScholes` instance for every leg (for the fair-value
and Greeks columns), and the live refresh skips a leg only when its
`closingDate` is set, not when its `closingPrice` is. -/
theorem claim2_closed_leg_frozen (now : ℚ) (mkt : MarketData)
    (structures : List Structure) (sId : String) (live : Bool)
    (spot mult daxSpot daxVolatility riskFreeRate : ℚ) (leg : Leg) :
    (IsLegClosed leg →
      legCurrentPrice now mkt leg = ((leg.closingPrice.getD 0 : ℚ) : ℝ) ∧
      ¬ListPnlInvokesKernel now leg) ∧
    (IsLegClosed leg →
      (detailLegAnalysis now structures sId live spot mkt mult leg).currentPrice =
        ((leg.closingPrice.getD 0 : ℚ) : ℝ) ∧
      DetailInvokesKernel leg) ∧
    (∀ d : ℚ, leg.closingDate = some d →
      refreshLegUpdate now daxSpot daxVolatility riskFreeRate leg = leg ∧
      ¬RefreshInvokesKernel now leg) := by
  refine ⟨fun hc => ⟨?_, ?_⟩, fun hc => ⟨?_, trivial⟩, fun d hd => ⟨?_, ?_⟩⟩
  · simp [legCurrentPrice, hc]
  · intro hk; exact hk.1 hc
  · simp [detailLegAnalysis, hc]
  · simp [refreshLegUpdate, hd]
  · intro hk; rw [hk.1] at hd; exact Option.noConfusion hd


/-- Witness for C2's amended statement at a concrete closed leg with a
closing date. -/
theorem claim2_closed_leg_frozen_witness :
    IsLegClosed exLegClosed ∧ exLegClosed.closingDate = some 500 ∧
    legCurrentPrice 0 exMkt exLegClosed =
      ((exLegClosed.closingPrice.getD 0 : ℚ) : ℝ) ∧
    ¬ListPnlInvokesKernel 0 exLegClosed ∧
    refreshLegUpdate 0 24500 20 2.61 exLegClosed = exLegClosed := by
  have h := claim2_closed_leg_frozen 0 exMkt [] "s" false 24500 5
    24500 20 2.61 exLegClosed
  have hc : IsLegClosed exLegClosed := by decide
  exact ⟨hc, rfl, (h.1 hc).1, (h.1 hc).2, (h.2.2 500 rfl).1⟩

/-- Counterexample to C2 as stated: a leg with a set, non-zero
`closingPrice` but no `closingDate` — the claim says no valuation operation
ever invokes the Pricing Kernel for it, yet the detail view always does, and
the live refresh revalues it through the kernel (it even overwrites the
leg's live IV with the market proxy). -/
theorem claim2_counterexample :
    IsLegClosed exLegNoDate ∧ DetailInvokesKernel exLegNoDate ∧
    RefreshInvokesKernel 0 exLegNoDate ∧
    (refreshLegUpdate 0 24500 20 2.61 exLegNoDate).currentIv = some 20 := by
  refine ⟨by decide, trivial, ⟨rfl, ?_⟩, ?_⟩
  · rw [getYearFraction]
    norm_num [exLegNoDate]
  · simp only [refreshLegUpdate, exLegNoDate]
    norm_num

/-- **C5.** An open leg with non-positive time to expiry (or, at the payoff
simulator, time below the 0.001-year epsilon) is valued at intrinsic value
— `max(0, spot − strike)` for a call, `max(0, strike − spot)` for a put —
bypassing the closed-form kernel, at all three call sites: list-view PnL,
live refresh, and payoff simulation. -/
theorem claim5_expired_intrinsic :
    (∀ (now : ℚ) (mkt : MarketData) (leg : Leg), ¬IsLegClosed leg →
      getTimeToExpiry now leg.expiryDate ≤ 0 →
      legCurrentPrice now mkt leg =
        ((intrinsicValue leg.optionType mkt.daxSpot leg.strike : ℚ) : ℝ)) ∧
    (∀ (now daxSpot daxVolatility riskFreeRate : ℚ) (leg : Leg),
      getYearFraction now leg.expiryDate ≤ 0 → leg.closingDate = none →
      (refreshLegUpdate now daxSpot daxVolatility riskFreeRate leg).currentPrice =
        some ((intrinsicValue leg.optionType daxSpot leg.strike : ℚ) : ℝ)) ∧
    (∀ (spot : ℚ) (mkt : MarketData) (leg : Leg) (tRemainingSim : ℚ),
      tRemainingSim < 0.001 →
      payoffValSimulated spot mkt leg tRemainingSim =
        ((intrinsicValue leg.optionType spot leg.strike : ℚ) : ℝ)) := by
  refine ⟨fun now mkt leg hopen hT => ?_, fun now dS dV r leg hT hd => ?_,
    fun spot mkt leg t ht => ?_⟩
  · rw [legCurrentPrice, if_neg hopen, if_neg (not_lt.mpr hT)]
  · simp [refreshLegUpdate, hd, hT]
  · rw [payoffValSimulated, if_pos ht]

/-- Witness for C5 at a concrete expired open leg. -/
theorem claim5_expired_intrinsic_witness :
    ¬IsLegClosed exLegExpired ∧ getTimeToExpiry 0 exLegExpired.expiryDate ≤ 0 ∧
    legCurrentPrice 0 exMkt exLegExpired =
      ((intrinsicValue exLegExpired.optionType exMkt.daxSpot exLegExpired.strike : ℚ) : ℝ) ∧
    payoffValSimulated 24500 exMkt exLegExpired 0 =
      ((intrinsicValue exLegExpired.optionType 24500 exLegExpired.strike : ℚ) : ℝ) := by
  have hT : getTimeToExpiry 0 exLegExpired.expiryDate ≤ 0 := by
    rw [getTimeToExpiry, getYearFraction]
    norm_num [exLegExpired]
  exact ⟨by decide, hT,
    claim5_expired_intrinsic.1 0 exMkt exLegExpired (by decide) hT,
    claim5_expired_intrinsic.2.2 24500 exMkt exLegExpired 0 (by norm_num)⟩

/-- **C7.** The payoff sampler returns an empty sequence (not an error) on an
empty leg list, and for a Closed structure with `realizedPnl` present it
returns, at every sampled price, both payoff values equal to the frozen
`realizedPnl` — a flat sequence. -/
theorem claim7_payoff_degenerate :
    (∀ (now : ℚ) (mkt : MarketData) (mult viewRange simPct : ℚ)
      (st : Status) (rp : Option ℚ),
      payoffData now [] mkt mult viewRange simPct st rp = []) ∧
    (∀ (now : ℚ) (legs : List Leg) (mkt : MarketData)
      (mult viewRange simPct r : ℚ),
      payoffData now legs mkt mult viewRange simPct Status.Closed (some r) =
        (chartPoints legs mkt.daxSpot viewRange).map fun p =>
          ⟨p, (r : ℝ), (r : ℝ)⟩) := by
  constructor
  · intro now mkt mult vr sp st rp
    simp [payoffData, chartPoints]
  · intro now legs mkt mult vr sp r
    simp only [payoffData]
    by_cases h : (chartPoints legs mkt.daxSpot vr).isEmpty
    · rw [if_pos h]
      rw [List.isEmpty_iff] at h
      rw [h, List.map_nil]
    · rw [if_neg h, if_pos (by simp)]
      simp

/-! ## Sorting with the analyzer's pairwise comparator

The comparator of `equityChartData` compares a pair by serial only when both
members carry one, so the global relation is neither transitive nor a single
criterion; sortedness results therefore hold relative to a predicate `P`
under which the comparator coincides with a genuine total preorder. -/

lemma sorted_orderedInsert_congr {α : Type*} {r : α → α → Prop}
    [DecidableRel r] (r' : α → α → Prop) (P : α → Prop)
    (htrans : ∀ a b c, r' a b → r' b c → r' a c)
    (htotal : ∀ a b, r' a b ∨ r' b a)
    (hcongr : ∀ a b, P a → P b → (r a b ↔ r' a b)) :
    ∀ (l : List α) (x : α), l.Sorted r' → P x → (∀ a ∈ l, P a) →
      (l.orderedInsert r x).Sorted r' := by
  intro l
  induction l with
  | nil => intro x _ _ _; simp [List.orderedInsert, List.sorted_singleton]
  | cons b bs ih =>
    intro x hs hPx hPl
    have hPb : P b := hPl b (List.mem_cons_self b bs)
    rw [List.orderedInsert]
    by_cases h : r x b
    · rw [if_pos h]
      have hxb : r' x b := (hcongr x b hPx hPb).mp h
      rw [List.sorted_cons]
      refine ⟨?_, hs⟩
      intro z hz
      rcases List.mem_cons.mp hz with rfl | hz'
      · exact hxb
      · exact htrans x b z hxb ((List.sorted_cons.mp hs).1 z hz')
    · rw [if_neg h]
      have hbx : r' b x := by
        rcases htotal x b with hx | hx
        · exact absurd ((hcongr x b hPx hPb).mpr hx) h
        · exact hx
      rw [List.sorted_cons]
      constructor
      · intro z hz
        rcases (List.mem_orderedInsert r).mp hz with rfl | hz'
        · exact hbx
        · exact (List.sorted_cons.mp hs).1 z hz'
      · exact ih x (List.sorted_cons.mp hs).2 hPx
          (fun a ha => hPl a (List.mem_cons_of_mem b ha))

lemma sorted_insertionSort_congr {α : Type*} {r : α → α → Prop}
    [DecidableRel r] (r' : α → α → Prop) (P : α → Prop)
    (htrans : ∀ a b c, r' a b → r' b c → r' a c)
    (htotal : ∀ a b, r' a b ∨ r' b a)
    (hcongr : ∀ a b, P a → P b → (r a b ↔ r' a b)) :
    ∀ l : List α, (∀ a ∈ l, P a) → (List.insertionSort r l).Sorted r' := by
  intro l
  induction l with
  | nil => intro _; simp
  | cons a l ih =>
    intro hP
    rw [List.insertionSort]
    refine sorted_orderedInsert_congr r' P htrans htotal hcongr _ a
      (ih fun x hx => hP x (List.mem_cons_of_mem a hx))
      (hP a (List.mem_cons_self a l)) ?_
    intro x hx
    exact hP x (List.mem_cons_of_mem a ((List.perm_insertionSort r l).mem_iff.mp hx))

/-- Ascending serial order on structures. -/
def serialLe (a b : Structure) : Prop := getSerial a.tag ≤ getSerial b.tag

/-- Ascending effective-closing-date order on structures. -/
def dateLe (a b : Structure) : Prop :=
  getEffectiveClosingDate a ≤ getEffectiveClosingDate b

instance : DecidableRel serialLe := fun a b =>
  inferInstanceAs (Decidable (getSerial a.tag ≤ getSerial b.tag))

instance : DecidableRel dateLe := fun a b =>
  inferInstanceAs (Decidable (getEffectiveClosingDate a ≤ getEffectiveClosingDate b))

lemma structLe_congr_serial (a b : Structure)
    (ha : getSerial a.tag ≠ -1) (hb : getSerial b.tag ≠ -1) :
    structLe a b ↔ serialLe a b := by
  unfold structLe structCmp serialLe
  rw [if_pos ⟨ha, hb⟩]
  constructor
  · intro h
    have : ((getSerial a.tag - getSerial b.tag : ℤ) : ℚ) ≤ 0 := h
    rw [Int.cast_nonpos] at this
    omega
  · intro h
    show ((getSerial a.tag - getSerial b.tag : ℤ) : ℚ) ≤ 0
    rw [Int.cast_nonpos]
    omega

lemma structLe_congr_date (a b : Structure)
    (ha : getSerial a.tag = -1) :
    structLe a b ↔ dateLe a b := by
  unfold structLe structCmp dateLe
  rw [if_neg (by simp [ha])]
  exact sub_nonpos

/-- **C8 (amended).** The analyzer's comparator works pairwise: a pair in
which both structures carry a serial suffix compares by serial, any other
pair by effective closing date.  In particular, when every Closed structure
carries a serial the emitted order is ascending by serial, and when none
does it is ascending by effective closing date; but with a mixed list the
result need not be ordered by closing date (see the counterexample). -/
theorem claim8_closed_ordering (l : List Structure) :
    ((∀ s ∈ l, getSerial s.tag ≠ -1) →
      (sortStructures l).Sorted serialLe ∧ List.Perm (sortStructures l) l) ∧
    ((∀ s ∈ l, getSerial s.tag = -1) →
      (sortStructures l).Sorted dateLe ∧ List.Perm (sortStructures l) l) := by
  constructor
  · intro hP
    refine ⟨?_, List.perm_insertionSort structLe l⟩
    exact sorted_insertionSort_congr serialLe (fun s => getSerial s.tag ≠ -1)
      (fun a b c hab hbc => le_trans hab hbc)
      (fun a b => le_total (getSerial a.tag) (getSerial b.tag))
      (fun a b ha hb => structLe_congr_serial a b ha hb) l hP
  · intro hP
    refine ⟨?_, List.perm_insertionSort structLe l⟩
    exact sorted_insertionSort_congr dateLe (fun s => getSerial s.tag = -1)
      (fun a b c hab hbc => le_trans hab hbc)
      (fun a b => le_total (getEffectiveClosingDate a) (getEffectiveClosingDate b))
      (fun a b ha _ => structLe_congr_date a b ha) l hP

/-- Closed structure with serial 1 and the latest effective closing date. -/
def exSortA : Structure :=
  { id := "A", tag := "S1", legs := [], status := Status.Closed,
    multiplier := 1, closingDate := some 3, realizedPnl := some 10 }

/-- Closed structure with serial 2 and the middle effective closing date. -/
def exSortB : Structure :=
  { id := "B", tag := "S2", legs := [], status := Status.Closed,
    multiplier := 1, closingDate := some 2, realizedPnl := some (-5) }

/-- Closed structure without a serial suffix, earliest closing date. -/
def exSortC : Structure :=
  { id := "C", tag := "X", legs := [], status := Status.Closed,
    multiplier := 1, closingDate := some 1, realizedPnl := some 7 }

/-- Witness for C8's amended statement: an all-serial list comes out sorted
by serial, an all-serial-less list sorted by date. -/
theorem claim8_closed_ordering_witness :
    (∀ s ∈ [exSortA, exSortB], getSerial s.tag ≠ -1) ∧
    (sortStructures [exSortA, exSortB]).Sorted serialLe ∧
    (∀ s ∈ [exSortC], getSerial s.tag = -1) ∧
    (sortStructures [exSortC]).Sorted dateLe :=
  ⟨by decide, ((claim8_closed_ordering [exSortA, exSortB]).1 (by decide)).1,
    by decide, ((claim8_closed_ordering [exSortC]).2 (by decide)).1⟩

set_option maxRecDepth 8000 in
unseal Rat.sub Rat.add Rat.mul Rat.inv in
/-- Counterexample to C8 as stated: in a mixed list (serials 1 and 2 with
closing dates 3 and 2, plus a serial-less structure with closing date 1) the
claim's fallback predicts the closing-date order `X, S2, S1`, but the
pairwise comparator emits `X, S1, S2` — the serial-carrying pair is still
compared by serial, so the result is not ordered by effective closing
date. -/
theorem claim8_counterexample :
    (¬∀ s ∈ [exSortA, exSortB, exSortC], getSerial s.tag ≠ -1) ∧
    (sortStructures [exSortA, exSortB, exSortC]).map (·.tag) = ["X", "S1", "S2"] ∧
    ¬(sortStructures [exSortA, exSortB, exSortC]).Sorted dateLe := by
  refine ⟨by decide, by decide, by decide⟩

/-! ## Equity-walk lemmas -/

lemma equity_fold_length (initialCapital : ℚ) :
    ∀ (l : List Structure) (st : ℚ × List EquityPoint),
      ((l.foldl (fun (st : ℚ × List EquityPoint) s =>
        let cumulativePnl := st.1 + s.realizedPnl.getD 0
        let currentEquity := initialCapital + cumulativePnl
        let peakEquity :=
          max ((st.2.map (·.equity)).foldl max initialCapital) currentEquity
        let drawdown := currentEquity - peakEquity
        (cumulativePnl,
          st.2 ++ [⟨s.tag, currentEquity, drawdown, getEffectiveClosingDate s⟩])) st).2).length
        = st.2.length + l.length := by
  intro l
  induction l with
  | nil => intro st; simp
  | cons s rest ih =>
    intro st
    rw [List.foldl_cons, ih]
    simp
    omega

lemma equity_fold_mem (initialCapital : ℚ) :
    ∀ (l : List Structure) (st : ℚ × List EquityPoint) (p : EquityPoint),
      p ∈ st.2 →
      p ∈ (l.foldl (fun (st : ℚ × List EquityPoint) s =>
        let cumulativePnl := st.1 + s.realizedPnl.getD 0
        let currentEquity := initialCapital + cumulativePnl
        let peakEquity :=
          max ((st.2.map (·.equity)).foldl max initialCapital) currentEquity
        let drawdown := currentEquity - peakEquity
        (cumulativePnl,
          st.2 ++ [⟨s.tag, currentEquity, drawdown, getEffectiveClosingDate s⟩])) st).2 := by
  intro l
  induction l with
  | nil => intro st p h; exact h
  | cons s rest ih =>
    intro st p h
    rw [List.foldl_cons]
    exact ih _ p (List.mem_append_left _ h)

lemma equity_fold_drawdown_nonpos (initialCapital : ℚ) :
    ∀ (l : List Structure) (st : ℚ × List EquityPoint),
      (∀ p ∈ st.2, p.drawdown ≤ 0) →
      ∀ p ∈ (l.foldl (fun (st : ℚ × List EquityPoint) s =>
          let cumulativePnl := st.1 + s.realizedPnl.getD 0
          let currentEquity := initialCapital + cumulativePnl
          let peakEquity :=
            max ((st.2.map (·.equity)).foldl max initialCapital) currentEquity
          let drawdown := currentEquity - peakEquity
          (cumulativePnl,
            st.2 ++ [⟨s.tag, currentEquity, drawdown, getEffectiveClosingDate s⟩])) st).2,
        p.drawdown ≤ 0 := by
  intro l
  induction l with
  | nil => intro st h; exact h
  | cons s rest ih =>
    intro st h
    rw [List.foldl_cons]
    refine ih _ ?_
    intro p hp
    rcases List.mem_append.mp hp with hp | hp
    · exact h p hp
    · rcases List.mem_singleton.mp hp with rfl
      exact sub_nonpos.mpr (le_max_right _ _)

lemma foldl_min_le_init : ∀ (l : List ℚ) (a : ℚ), l.foldl min a ≤ a := by
  intro l
  induction l with
  | nil => intro a; exact le_refl a
  | cons x xs ih =>
    intro a
    rw [List.foldl_cons]
    exact le_trans (ih (min a x)) (min_le_left a x)

lemma foldl_min_le_mem : ∀ (l : List ℚ) (a x : ℚ), x ∈ l → l.foldl min a ≤ x := by
  intro l
  induction l with
  | nil => intro a x h; simp at h
  | cons y ys ih =>
    intro a x h
    rw [List.foldl_cons]
    rcases List.mem_cons.mp h with rfl | h'
    · exact le_trans (foldl_min_le_init ys (min a x)) (min_le_right a x)
    · exact ih (min a y) x h'

lemma foldl_min_eq_or_mem : ∀ (l : List ℚ) (a : ℚ),
    l.foldl min a = a ∨ l.foldl min a ∈ l := by
  intro l
  induction l with
  | nil => intro a; exact Or.inl rfl
  | cons x xs ih =>
    intro a
    rw [List.foldl_cons]
    rcases ih (min a x) with h | h
    · rw [h]
      rcases min_choice a x with h' | h'
      · exact Or.inl h'
      · exact Or.inr (by rw [h']; exact List.mem_cons_self x xs)
    · exact Or.inr (List.mem_cons_of_mem x h)

/-- **C9.** Walking the ordered Closed structures from the initial capital,
every emitted drawdown is ≤ 0; when the series is non-empty, `maxDrawdown`
is the minimum drawdown across the emitted series (it is attained and bounds
every drawdown below); and with fewer than two points `maxDrawdown` is 0. -/
theorem claim9_equity_drawdown (structures : List Structure) (C : ℚ) :
    (∀ p ∈ equityChartData structures C, p.drawdown ≤ 0) ∧
    (equityChartData structures C ≠ [] →
      maxDrawdown structures C ∈ (equityChartData structures C).map (·.drawdown) ∧
      ∀ d ∈ (equityChartData structures C).map (·.drawdown),
        maxDrawdown structures C ≤ d) ∧
    ((equityChartData structures C).length < 2 → maxDrawdown structures C = 0) := by
  by_cases hE : (structures.filter fun s => s.status = Status.Closed).isEmpty
  · have hdata : equityChartData structures C = [] := by
      simp only [equityChartData]
      rw [if_pos hE]
    refine ⟨?_, ?_, ?_⟩
    · intro p hp; rw [hdata] at hp; simp at hp
    · intro h; exact absurd hdata h
    · intro _
      simp only [maxDrawdown]
      rw [hdata]
      simp
  · have hdata : equityChartData structures C =
        ((sortStructures (structures.filter fun s =>
          s.status = Status.Closed)).foldl (fun (st : ℚ × List EquityPoint) s =>
            let cumulativePnl := st.1 + s.realizedPnl.getD 0
            let currentEquity := C + cumulativePnl
            let peakEquity :=
              max ((st.2.map (·.equity)).foldl max C) currentEquity
            let drawdown := currentEquity - peakEquity
            (cumulativePnl,
              st.2 ++ [⟨s.tag, currentEquity, drawdown, getEffectiveClosingDate s⟩]))
          (0, [⟨"Capitale Iniziale", C, 0, 0⟩])).2 := by
      simp only [equityChartData]
      rw [if_neg hE]
    have hlen : (equityChartData structures C).length =
        1 + (structures.filter fun s => s.status = Status.Closed).length := by
      rw [hdata, equity_fold_length C]
      simp [(List.perm_insertionSort structLe _).length_eq, sortStructures]
    have hlen2 : 2 ≤ (equityChartData structures C).length := by
      rw [hlen]
      have : (structures.filter fun s => s.status = Status.Closed).length ≠ 0 := by
        intro h0
        exact hE (List.isEmpty_iff.mpr (List.length_eq_zero.mp h0))
      omega
    have hstart : (⟨"Capitale Iniziale", C, 0, 0⟩ : EquityPoint) ∈
        equityChartData structures C := by
      rw [hdata]
      exact equity_fold_mem C _ _ _ (List.mem_singleton.mpr rfl)
    refine ⟨?_, fun _ => ⟨?_, ?_⟩, ?_⟩
    · intro p hp
      rw [hdata] at hp
      exact equity_fold_drawdown_nonpos C _ _ (by simp) p hp
    · simp only [maxDrawdown]
      rw [if_pos (by omega)]
      rcases foldl_min_eq_or_mem ((equityChartData structures C).map (·.drawdown)) 0
        with h | h
      · rw [h]
        exact List.mem_map.mpr ⟨⟨"Capitale Iniziale", C, 0, 0⟩, hstart, rfl⟩
      · exact h
    · intro d hd
      simp only [maxDrawdown]
      rw [if_pos (by omega)]
      exact foldl_min_le_mem _ 0 d hd
    · intro hlt
      omega

set_option maxRecDepth 8000 in
unseal Rat.add Rat.sub Rat.mul Rat.inv in
/-- Witness for C9 on a concrete two-structure closed portfolio. -/
theorem claim9_equity_drawdown_witness :
    equityChartData [exSortA, exSortB] 1000 ≠ [] ∧
    maxDrawdown [exSortA, exSortB] 1000 ∈
      (equityChartData [exSortA, exSortB] 1000).map (·.drawdown) ∧
    ∀ d ∈ (equityChartData [exSortA, exSortB] 1000).map (·.drawdown),
      maxDrawdown [exSortA, exSortB] 1000 ≤ d := by
  have h := (claim9_equity_drawdown [exSortA, exSortB] 1000).2.1 (by decide)
  exact ⟨by decide, h.1, h.2⟩

/-! ## Collapse-scan lemmas for the payoff grid -/

lemma foldl_max_init_le : ∀ (l : List ℚ) (a : ℚ), a ≤ l.foldl max a := by
  intro l
  induction l with
  | nil => intro a; exact le_refl a
  | cons x xs ih =>
    intro a
    rw [List.foldl_cons]
    exact le_trans (le_max_left a x) (ih (max a x))

lemma collapseGo_pairwise :
    ∀ (l : List ℚ) (prev : ℚ), List.Chain (· ≤ ·) prev l →
      (collapseGo prev l).Pairwise (fun a b => a + 1/10 < b) ∧
      ∀ z ∈ collapseGo prev l, prev + 1/10 < z := by
  intro l
  induction l with
  | nil => intro prev _; exact ⟨List.Pairwise.nil, by simp [collapseGo]⟩
  | cons y ys ih =>
    intro prev hch
    rw [List.chain_cons] at hch
    obtain ⟨hpy, hch'⟩ := hch
    obtain ⟨hpw, hbnd⟩ := ih y hch'
    rw [collapseGo]
    by_cases h : y - prev > 0.1
    · rw [if_pos h]
      constructor
      · exact List.Pairwise.cons (fun z hz => hbnd z hz) hpw
      · intro z hz
        rcases List.mem_cons.mp hz with rfl | hz'
        · norm_num at h ⊢
          linarith
        · have := hbnd z hz'
          norm_num at this ⊢
          linarith
    · rw [if_neg h]
      refine ⟨hpw, fun z hz => ?_⟩
      have := hbnd z hz
      linarith

lemma collapsePoints_pairwise (l : List ℚ) (hs : l.Sorted (· ≤ ·)) :
    (collapsePoints l).Pairwise (fun a b => a + 1/10 < b) := by
  cases l with
  | nil => exact List.Pairwise.nil
  | cons x xs =>
    rw [collapsePoints]
    have hch : List.Chain (· ≤ ·) x xs := List.chain_iff_pairwise.mpr hs
    obtain ⟨hpw, hbnd⟩ := collapseGo_pairwise xs x hch
    exact List.Pairwise.cons (fun z hz => hbnd z hz) hpw

lemma collapseGo_eq_self :
    ∀ (l : List ℚ) (prev : ℚ),
      List.Chain (fun a b => a + 1/10 < b) prev l → collapseGo prev l = l := by
  intro l
  induction l with
  | nil => intro prev _; rfl
  | cons y ys ih =>
    intro prev hch
    rw [List.chain_cons] at hch
    rw [collapseGo, if_pos (by norm_num; linarith [hch.1])]
    rw [ih y hch.2]

lemma collapsePoints_eq_self (l : List ℚ)
    (h : l.Chain' (fun a b => a + 1/10 < b)) : collapsePoints l = l := by
  cases l with
  | nil => rfl
  | cons x xs =>
    rw [collapsePoints, collapseGo_eq_self xs x h]

lemma collapseGo_sublist : ∀ (l : List ℚ) (prev : ℚ), List.Sublist (collapseGo prev l) l := by
  intro l
  induction l with
  | nil => intro prev; exact List.Sublist.refl []
  | cons y ys ih =>
    intro prev
    rw [collapseGo]
    by_cases h : y - prev > 0.1
    · rw [if_pos h]
      exact (ih y).cons₂ y
    · rw [if_neg h]
      exact (ih y).cons y

lemma collapsePoints_sublist (l : List ℚ) : List.Sublist (collapsePoints l) l := by
  cases l with
  | nil => exact List.Sublist.refl []
  | cons x xs =>
    rw [collapsePoints]
    exact (collapseGo_sublist xs x).cons₂ x

lemma sorted_head_eq_min (l : List ℚ) (a : ℚ) (hs : l.Sorted (· ≤ ·))
    (hmem : a ∈ l) (hmin : ∀ b ∈ l, a ≤ b) : l.head? = some a := by
  cases l with
  | nil => simp at hmem
  | cons b bs =>
    have hba : b = a := by
      refine le_antisymm ?_ (hmin b (List.mem_cons_self b bs))
      rcases List.mem_cons.mp hmem with rfl | h'
      · exact le_refl _
      · exact (List.sorted_cons.mp hs).1 a h'
    rw [List.head?_cons, hba]

lemma sorted_getLast?_eq_max :
    ∀ (l : List ℚ) (a : ℚ), l.Sorted (· ≤ ·) → a ∈ l →
      (∀ b ∈ l, b ≤ a) → l.getLast? = some a := by
  intro l
  induction l with
  | nil => intro a _ hmem _; simp at hmem
  | cons b bs ih =>
    intro a hs hmem hmax
    cases bs with
    | nil =>
      rcases List.mem_singleton.mp hmem with rfl
      rfl
    | cons c cs =>
      rw [List.getLast?_cons_cons]
      have ha' : a ∈ c :: cs := by
        rcases List.mem_cons.mp hmem with rfl | h'
        · have hac : c ≤ a := hmax c (List.mem_cons_of_mem a (List.mem_cons_self c cs))
          have hca : a ≤ c := (List.sorted_cons.mp hs).1 c (List.mem_cons_self c cs)
          rw [le_antisymm hca hac]
          exact List.mem_cons_self c cs
        · exact h'
      exact ih a (List.sorted_cons.mp hs).2 ha'
        (fun b hb => hmax b (List.mem_cons_of_mem _ hb))

/-! ## Geometry of the sampled domain -/

lemma chartSpread_pos (legs : List Leg) (spot : ℚ) (h : 0 < spot) :
    0 < chartSpread legs spot := by
  unfold chartSpread
  by_cases hc : chartMaxStrike legs spot - chartMinStrike legs spot < spot * 0.01
  · rw [if_pos hc]
    positivity
  · rw [if_neg hc]
    push_neg at hc
    have : (0 : ℚ) < spot * 0.01 := by positivity
    linarith

lemma chartPadding_pos (legs : List Leg) (spot viewRange : ℚ)
    (hs : 0 < spot) (hv : 0 ≤ viewRange) :
    0 < chartPadding legs spot viewRange := by
  unfold chartPadding
  have h1 : 0 < chartSpread legs spot * 0.1 := by
    have := chartSpread_pos legs spot hs
    positivity
  have h2 : 0 ≤ (max (chartSpread legs spot * 5) (spot * 0.3) -
      chartSpread legs spot * 0.1) * (viewRange / 100) := by
    apply mul_nonneg
    · have h5 : chartSpread legs spot * 0.1 ≤ chartSpread legs spot * 5 := by
        have := chartSpread_pos legs spot hs
        nlinarith
      have := le_max_left (chartSpread legs spot * 5) (spot * 0.3)
      linarith
    · positivity
  linarith

lemma chartMinStrike_le_chartMaxStrike (legs : List Leg) (spot : ℚ) :
    chartMinStrike legs spot ≤ chartMaxStrike legs spot :=
  le_trans (foldl_min_le_init _ spot) (foldl_max_init_le _ spot)

lemma chartXMin_le (legs : List Leg) (spot viewRange : ℚ) :
    chartXMin legs spot viewRange ≤
      chartMinStrike legs spot - chartPadding legs spot viewRange :=
  Int.floor_le _

lemma le_chartXMax (legs : List Leg) (spot viewRange : ℚ) :
    chartMaxStrike legs spot + chartPadding legs spot viewRange ≤
      chartXMax legs spot viewRange :=
  Int.le_ceil _

lemma chartXMin_le_chartXMax (legs : List Leg) (spot viewRange : ℚ)
    (hs : 0 < spot) (hv : 0 ≤ viewRange) :
    chartXMin legs spot viewRange ≤ chartXMax legs spot viewRange := by
  have h1 := chartXMin_le legs spot viewRange
  have h2 := le_chartXMax legs spot viewRange
  have h3 := chartMinStrike_le_chartMaxStrike legs spot
  have h4 := chartPadding_pos legs spot viewRange hs hv
  linarith

lemma chartXMin_mem_basePoints (legs : List Leg) (spot viewRange : ℚ) :
    chartXMin legs spot viewRange ∈ chartBasePoints legs spot viewRange := by
  unfold chartBasePoints
  exact List.mem_map.mpr ⟨0, by simp, by push_cast; ring⟩

lemma chartXMax_mem_basePoints (legs : List Leg) (spot viewRange : ℚ) :
    chartXMax legs spot viewRange ∈ chartBasePoints legs spot viewRange := by
  unfold chartBasePoints
  refine List.mem_map.mpr ⟨150, by simp, ?_⟩
  push_cast
  field_simp

lemma chartAllPoints_sorted (legs : List Leg) (spot viewRange : ℚ) :
    (chartAllPoints legs spot viewRange).Sorted (· ≤ ·) := by
  unfold chartAllPoints
  exact List.sorted_insertionSort _ _

lemma chartAllPoints_mem_iff (legs : List Leg) (spot viewRange : ℚ) (p : ℚ) :
    p ∈ chartAllPoints legs spot viewRange ↔
      p ∈ (chartBasePoints legs spot viewRange ++
        chartCriticalPoints legs spot).filter fun q =>
          chartXMin legs spot viewRange ≤ q ∧ q ≤ chartXMax legs spot viewRange := by
  unfold chartAllPoints
  exact (List.perm_insertionSort _ _).mem_iff

lemma chartAllPoints_bounds (legs : List Leg) (spot viewRange : ℚ) (p : ℚ)
    (hp : p ∈ chartAllPoints legs spot viewRange) :
    chartXMin legs spot viewRange ≤ p ∧ p ≤ chartXMax legs spot viewRange := by
  have := (chartAllPoints_mem_iff legs spot viewRange p).mp hp
  have h := List.of_mem_filter this
  simpa using h

lemma chartXMin_mem_allPoints (legs : List Leg) (spot viewRange : ℚ)
    (hs : 0 < spot) (hv : 0 ≤ viewRange) :
    chartXMin legs spot viewRange ∈ chartAllPoints legs spot viewRange := by
  rw [chartAllPoints_mem_iff]
  refine List.mem_filter.mpr ⟨List.mem_append_left _
    (chartXMin_mem_basePoints legs spot viewRange), ?_⟩
  simp only [decide_eq_true_eq]
  exact ⟨le_refl _, chartXMin_le_chartXMax legs spot viewRange hs hv⟩

lemma chartXMax_mem_allPoints (legs : List Leg) (spot viewRange : ℚ)
    (hs : 0 < spot) (hv : 0 ≤ viewRange) :
    chartXMax legs spot viewRange ∈ chartAllPoints legs spot viewRange := by
  rw [chartAllPoints_mem_iff]
  refine List.mem_filter.mpr ⟨List.mem_append_left _
    (chartXMax_mem_basePoints legs spot viewRange), ?_⟩
  simp only [decide_eq_true_eq]
  exact ⟨chartXMin_le_chartXMax legs spot viewRange hs hv, le_refl _⟩

/-- **C6 (amended).** For a non-empty leg list the sampled grid is strictly
increasing with consecutive gaps above 0.1; its first point is exactly
`⌊minStrike − padding⌋ ≤ minStrike − padding`, so the left end of the padded
domain is covered; every point comes from the base/critical candidate list;
`maxStrike + padding ≤ ⌈maxStrike + padding⌉`; but the right end is reached
only when no two consecutive candidates lie within 0.1 of each other — the
collapse compares each candidate to its raw predecessor, so with a dense
base grid the tail of the domain can be dropped (see the counterexample). -/
theorem claim6_chart_grid (legs : List Leg) (spot viewRange : ℚ)
    (hne : legs ≠ []) (hs : 0 < spot) (hv : 0 ≤ viewRange) :
    (chartPoints legs spot viewRange).Pairwise (fun a b => a + 1/10 < b) ∧
    (chartPoints legs spot viewRange).head? =
      some (chartXMin legs spot viewRange) ∧
    chartXMin legs spot viewRange ≤
      chartMinStrike legs spot - chartPadding legs spot viewRange ∧
    chartMaxStrike legs spot + chartPadding legs spot viewRange ≤
      chartXMax legs spot viewRange ∧
    List.Sublist (chartPoints legs spot viewRange)
      (chartAllPoints legs spot viewRange) ∧
    ((chartAllPoints legs spot viewRange).Chain' (fun a b => a + 1/10 < b) →
      (chartPoints legs spot viewRange).getLast? =
        some (chartXMax legs spot viewRange)) := by
  have hpts : chartPoints legs spot viewRange =
      collapsePoints (chartAllPoints legs spot viewRange) := by
    unfold chartPoints
    rw [if_neg (by simp [hne])]
  have hsorted := chartAllPoints_sorted legs spot viewRange
  refine ⟨?_, ?_, chartXMin_le legs spot viewRange, le_chartXMax legs spot viewRange,
    ?_, ?_⟩
  · rw [hpts]
    exact collapsePoints_pairwise _ hsorted
  · rw [hpts]
    have hhead : (chartAllPoints legs spot viewRange).head? =
        some (chartXMin legs spot viewRange) :=
      sorted_head_eq_min _ _ hsorted
        (chartXMin_mem_allPoints legs spot viewRange hs hv)
        (fun b hb => (chartAllPoints_bounds legs spot viewRange b hb).1)
    cases hall : chartAllPoints legs spot viewRange with
    | nil => rw [hall] at hhead; simp at hhead
    | cons x xs =>
      rw [hall] at hhead
      rw [List.head?_cons] at hhead
      rw [collapsePoints, List.head?_cons, hhead]
  · rw [hpts]
    exact collapsePoints_sublist _
  · intro hchain
    rw [hpts, collapsePoints_eq_self _ hchain]
    exact sorted_getLast?_eq_max _ _ hsorted
      (chartXMax_mem_allPoints legs spot viewRange hs hv)
      (fun b hb => (chartAllPoints_bounds legs spot viewRange b hb).2)

/-- A single at-the-money leg on a small underlying: the padded domain is
narrow, so the 150-point base step (2/150) is far below the 0.1 collapse
threshold. -/
def exLeg10 : Leg :=
  { id := "g", optionType := OptType.Call, strike := 10,
    expiryDate := 2000000000, quantity := 1, tradePrice := 1,
    openingDate := 0, impliedVolatility := 15 }

/-- A far out-of-the-money leg (spot 50, strike 110): the base step is 0.48
and no critical point falls within 0.1 of a base point, so nothing
collapses. -/
def exLeg110 : Leg :=
  { id := "h", optionType := OptType.Call, strike := 110,
    expiryDate := 2000000000, quantity := 1, tradePrice := 1,
    openingDate := 0, impliedVolatility := 15 }

set_option maxRecDepth 100000 in
unseal Rat.sub Rat.add Rat.mul Rat.inv Rat.ofScientific in
/-- Counterexample to C6 as stated: with one strike-10 leg, spot 10, zoom 0
the padded domain is `[9.9, 10.01 + …]`, i.e. `maxStrike + padding = 10.01`,
but every candidate after `xMin = 9` sits within 0.1 of its raw predecessor,
so the emitted grid is the single point `[9]` — it does not cover the
padded domain up to `maxStrike + padding`. -/
theorem claim6_counterexample :
    chartPoints [exLeg10] 10 0 = [9] ∧
    chartMaxStrike [exLeg10] 10 + chartPadding [exLeg10] 10 0 = 1001 / 100 ∧
    ∀ p ∈ chartPoints [exLeg10] 10 0,
      p < chartMaxStrike [exLeg10] 10 + chartPadding [exLeg10] 10 0 := by
  refine ⟨by decide, by decide, by decide⟩

/-- Linear boolean check that consecutive points are more than 0.1 apart. -/
def gapsOk : List ℚ → Bool
  | [] => true
  | [_] => true
  | x :: y :: t => (decide (x + 1/10 < y)) && gapsOk (y :: t)

lemma gapsOk_chain' : ∀ l : List ℚ, gapsOk l = true →
    l.Chain' (fun a b => a + 1/10 < b)
  | [] => fun _ => List.chain'_nil
  | [_] => fun _ => List.chain'_singleton _
  | x :: y :: t => fun h => by
    rw [gapsOk, Bool.and_eq_true, decide_eq_true_eq] at h
    exact List.chain'_cons.mpr ⟨h.1, gapsOk_chain' (y :: t) h.2⟩

/-- The candidate list of the C6 witness input, spelled out. -/
def witnessGrid : List ℚ := [44, 1112/25, 1124/25, 1136/25, 1148/25, 232/5, 1172/25, 1184/25, 1196/25, 1208/25, 244/5, 1232/25, 1244/25, 50, 1256/25, 1268/25, 256/5, 1292/25, 1304/25, 1316/25, 1328/25, 268/5, 1352/25, 1364/25, 1376/25, 1388/25, 56, 1412/25, 1424/25, 1436/25, 1448/25, 292/5, 1472/25, 1484/25, 1496/25, 1508/25, 304/5, 1532/25, 1544/25, 1556/25, 1568/25, 316/5, 1592/25, 1604/25, 1616/25, 1628/25, 328/5, 1652/25, 1664/25, 1676/25, 1688/25, 68, 1712/25, 1724/25, 1736/25, 1748/25, 352/5, 1772/25, 1784/25, 1796/25, 1808/25, 364/5, 1832/25, 1844/25, 1856/25, 1868/25, 376/5, 1892/25, 1904/25, 1916/25, 1928/25, 388/5, 1952/25, 1964/25, 1976/25, 1988/25, 80, 2012/25, 2024/25, 2036/25, 2048/25, 412/5, 2072/25, 2084/25, 2096/25, 2108/25, 424/5, 2132/25, 2144/25, 2156/25, 2168/25, 436/5, 2192/25, 2204/25, 2216/25, 2228/25, 448/5, 2252/25, 2264/25, 2276/25, 2288/25, 92, 2312/25, 2324/25, 2336/25, 2348/25, 472/5, 2372/25, 2384/25, 2396/25, 2408/25, 484/5, 2432/25, 2444/25, 2456/25, 2468/25, 496/5, 2492/25, 2504/25, 2516/25, 2528/25, 508/5, 2552/25, 2564/25, 2576/25, 2588/25, 104, 2612/25, 2624/25, 2636/25, 2648/25, 532/5, 2672/25, 2684/25, 2696/25, 2708/25, 544/5, 2732/25, 219/2, 2744/25, 110, 2756/25, 221/2, 2768/25, 556/5, 2792/25, 2804/25, 2816/25, 2828/25, 568/5, 2852/25, 2864/25, 2876/25, 2888/25, 116]

set_option maxRecDepth 100000 in
unseal Rat.sub Rat.add Rat.mul Rat.inv Rat.ofScientific in
/-- Witness for C6: a concrete input satisfying every hypothesis, including
the no-close-candidates condition of the conditional right-coverage part,
where the grid indeed ends at `⌈maxStrike + padding⌉`. -/
theorem claim6_chart_grid_witness :
    [exLeg110] ≠ [] ∧ (0 : ℚ) < 50 ∧ (0 : ℚ) ≤ 0 ∧
    (chartAllPoints [exLeg110] 50 0).Chain' (fun a b => a + 1/10 < b) ∧
    (chartPoints [exLeg110] 50 0).getLast? = some (chartXMax [exLeg110] 50 0) := by
  have heq : chartAllPoints [exLeg110] 50 0 = witnessGrid := by decide
  have hch : (chartAllPoints [exLeg110] 50 0).Chain' (fun a b => a + 1/10 < b) := by
    rw [heq]
    exact gapsOk_chain' witnessGrid (by decide)
  exact ⟨List.cons_ne_nil _ _, by norm_num, le_refl 0, hch,
    (claim6_chart_grid [exLeg110] 50 0 (List.cons_ne_nil _ _) (by norm_num)
      (le_refl 0)).2.2.2.2.2 hch⟩

end OptionDax
